import Mathlib

/-
Verification of the SelfStarter structured-generalization engine.

The Python sources (ACL.py, PrefixList.py, MetaTemplater.py,
commonFunctions.py, main.py) are shallowly embedded below.  Python dicts
with integer keys (configuration lines) become association lists over
`Int`; Python values that mix integers and strings become the `PyVal`
sum.  The external Hungarian solver (the munkres library) is passed as an
explicit function argument, exactly as the driver passes every other
flavor function; claims about the matcher are proved for every solver
output that is a valid assignment.
-/

set_option maxHeartbeats 1000000

namespace SelfStarter

/-- Python values occurring in a parsed line: integers (line numbers and
the prefix-list family tag) and strings (attribute fields, ACL protocol
names, parameter names). -/
inductive PyVal where
  | int : Int → PyVal
  | str : String → PyVal
deriving DecidableEq, Repr

/-- A configuration line: the Python dict from integer attribute indices
to values, as an association list whose first binding for a key wins.
Key -2 holds the identity tag, key -1 the line number.  All lines built
by the program have pairwise distinct keys. -/
abbrev Line := List (Int × PyVal)

/-- Python `line.get(k)`. -/
def Line.get (l : Line) (k : Int) : Option PyVal :=
  (List.find? (fun p => p.1 == k) l).map (fun p => p.2)

/-- Python `line[k] = v`: overwrite the binding in place (dicts never
hold a key twice, so replacing the first binding is the overwrite), or
append a new binding. -/
def Line.set : Line → Int → PyVal → Line
  | [], k, v => [(k, v)]
  | p :: rest, k, v => if p.1 = k then (k, v) :: rest else p :: Line.set rest k v

/-- Python truthiness of `dict.get(k)`: `None`, `0` and `""` are falsy. -/
def truthy : Option PyVal → Bool
  | none => false
  | some (.int n) => n != 0
  | some (.str s) => s != ""

/-- `hash(frozenset(filter(lambda a: a[0] != LINENUM, line.items())))`:
the set of (key, value) items of the line with the line-number key
removed.  Python hashing is modelled as injective on the frozenset. -/
def frozenItems (l : Line) : Finset (Int × PyVal) :=
  (l.filter (fun p => p.1 != -1)).toFinset

/-- `commonFunctions.INFINITY`. -/
def INFINITY : Int := 10000

/-- The paramValueMap produced by `parameterDistribution`: parameter name
to the list of its per-device values (`collections.Counter` keeps exactly
the membership information the scoring code queries). -/
abbrev ParamValueMap := List (String × List PyVal)

/-- Python `templateValue in paramValueMap` followed by the lookup:
only string values can be keys of the map. -/
def pvmLookup (pvm : ParamValueMap) (v : Option PyVal) : Option (List PyVal) :=
  match v with
  | some (.str s) => (pvm.find? (fun e => e.1 == s)).map (fun e => e.2)
  | _ => none

/-- One iteration of the attribute loop shared by both `LineScore`
functions (PrefixList.py lines 162-170, ACL.py lines 326-334). -/
def attrScore (pvm : ParamValueMap) (tv dv : Option PyVal) : Int :=
  if truthy tv && truthy dv then
    if tv == dv then 0
    else
      match pvmLookup pvm tv with
      | none => 2
      | some vals => if vals.any (fun x => some x == dv) then 1 else 2
  else 2

namespace ACL

/-- `ACL.LINE_PENALTY`. -/
def LINE_PENALTY : Int := 40

/-- `ACL.ATTRIBUTES`. -/
def ATTRIBUTES : Nat := 20

/-- `ACL.LineScore` (ACL.py lines 320-335): INFINITY when the protocol
tags (key -2) differ, otherwise the attribute-wise sum. -/
def LineScore (templateLine deviceLine : Line) (pvm : ParamValueMap) : Int :=
  if templateLine.get (-2) != deviceLine.get (-2) then INFINITY
  else
    (List.range ATTRIBUTES).foldl
      (fun score i =>
        score + attrScore pvm (templateLine.get (Int.ofNat i)) (deviceLine.get (Int.ofNat i))) 0

end ACL

namespace PrefixList

/-- `PrefixList.LINE_PENALTY`. -/
def LINE_PENALTY : Int := 14

/-- `PrefixList.ATTRIBUTES`. -/
def ATTRIBUTES : Nat := 11

/-- `PrefixList.LineScore` (PrefixList.py lines 159-171): the plain
attribute-wise sum; note that it never inspects key -2. -/
def LineScore (templateLine deviceLine : Line) (pvm : ParamValueMap) : Int :=
  (List.range ATTRIBUTES).foldl
    (fun score i =>
      score + attrScore pvm (templateLine.get (Int.ofNat i)) (deviceLine.get (Int.ofNat i))) 0

end PrefixList

/-- An IPv4 prefix-list line with family tag 0 and all eleven attributes
equal to "1". -/
def plFamily0Line : Line :=
  [(-2, .int 0), (-1, .int 0)] ++ (List.range 11).map (fun i => ((i : Int), PyVal.str "1"))

/-- The same line with family tag 1 (IPv6). -/
def plFamily1Line : Line :=
  [(-2, .int 1), (-1, .int 0)] ++ (List.range 11).map (fun i => ((i : Int), PyVal.str "1"))

namespace PrefixList

/-- A hash key: the frozenset of a line with the line number removed. -/
abbrev HKey := Finset (Int × PyVal)

/-- `ls1HashMap`: hash key to the positions of the LS1 lines with that
key, in increasing order. -/
abbrev HMap := List (HKey × List Nat)

/-- `ls1HashMap.setdefault(hash, list()).append(i)` (PrefixList.py
190-192). -/
def hmapAdd (hm : HMap) (k : HKey) (i : Nat) : HMap :=
  if hm.any (fun e => decide (e.1 = k)) then
    hm.map (fun e => if e.1 = k then (e.1, e.2 ++ [i]) else e)
  else hm ++ [(k, [i])]

/-- The LS1 bucketing loop, with the enumeration position threaded
explicitly. -/
def buildHashMapAux (i : Nat) : List Line → HMap → HMap
  | [], hm => hm
  | l :: rest, hm => buildHashMapAux (i + 1) rest (hmapAdd hm (frozenItems l) i)

/-- PrefixList.py 190-192. -/
def buildHashMap (LS1 : List Line) : HMap :=
  buildHashMapAux 0 LS1 []

/-- State of the shortcut loop over LS2 (PrefixList.py 185-203). -/
structure HashLoopState where
  hmap : HMap
  ls1Matched : List Nat
  ls2Matched : List Nat
  matched : List (Nat × Nat)

/-- One LS2 line of the shortcut loop (PrefixList.py 194-203): if the
same key has an unclaimed LS1 bucket, pop its last position and record
the pair as a free match. -/
def hashStep (st : HashLoopState) (j : Nat) (l2 : Line) : HashLoopState :=
  let key := frozenItems l2
  match st.hmap.find? (fun e => decide (e.1 = key)) with
  | some e =>
      if e.2 = [] then st
      else
        { hmap :=
            if e.2.length = 1 then st.hmap.filter (fun q => decide (q.1 ≠ key))
            else st.hmap.map (fun q => if q.1 = key then (q.1, q.2.dropLast) else q)
          ls1Matched := st.ls1Matched ++ [e.2.getLastD 0]
          ls2Matched := st.ls2Matched ++ [j]
          matched := st.matched ++ [(e.2.getLastD 0, j)] }
  | none => st

/-- The shortcut loop with the enumeration position threaded. -/
def hashLoopAux (j : Nat) : List Line → HashLoopState → HashLoopState
  | [], st => st
  | l :: rest, st => hashLoopAux (j + 1) rest (hashStep st j l)

/-- PrefixList.py 185-203 as a whole. -/
def hashLoop (LS1 LS2 : List Line) : HashLoopState :=
  hashLoopAux 0 LS2 ⟨buildHashMap LS1, [], [], []⟩

/-- The loop of PrefixList.py 205-220 with the enumeration position
threaded explicitly. -/
def leftoverAux (matchedIdx : List Nat) (i : Nat) : List Line → List (Nat × Line)
  | [] => []
  | l :: rest =>
      if i ∈ matchedIdx then leftoverAux matchedIdx (i + 1) rest
      else (i, l) :: leftoverAux matchedIdx (i + 1) rest

/-- PrefixList.py 205-220: the still unmatched lines of a sequence,
paired with their original positions (`ls1Map` / `ls2Map`). -/
def leftover (LS : List Line) (matchedIdx : List Nat) : List (Nat × Line) :=
  leftoverAux matchedIdx 0 LS

/-- PrefixList.py 221-226: the cost matrix over the leftover lines. -/
def similarityMatrix (scoreF : Line → Line → ParamValueMap → Int)
    (newLS1 newLS2 : List Line) (pvm : ParamValueMap) : List (List Int) :=
  newLS1.map (fun tline => newLS2.map (fun dline => scoreF tline dline pvm))

/-- `similarityMatrix[x][y]` (out-of-range reads never occur in the
source; they are totalised with 0). -/
def matAt (m : List (List Int)) (x y : Nat) : Int :=
  (m.getD x []).getD y 0

/-- The per-flavor line penalty picked at PrefixList.py 177-182. -/
def linePenaltyFor (noOfAttributes : Nat) : Int :=
  if noOfAttributes = ATTRIBUTES then LINE_PENALTY else ACL.LINE_PENALTY

/-- The per-flavor line score picked at PrefixList.py 177-182. -/
def lineScoreFor (noOfAttributes : Nat) : Line → Line → ParamValueMap → Int :=
  if noOfAttributes = ATTRIBUTES then LineScore else ACL.LineScore

/-- The loop over the solver result (PrefixList.py 232-237): keep a pair
and add its cost unless the cost is INFINITY, in which case charge the
line penalty instead. -/
def assignFold (mat : List (List Int)) (pen : Int) (ls1Map ls2Map : List Nat)
    (ind : List (Nat × Nat)) (st : Int × List (Nat × Nat)) : Int × List (Nat × Nat) :=
  ind.foldl
    (fun s p =>
      if matAt mat p.1 p.2 ≠ INFINITY then
        (s.1 + matAt mat p.1 p.2, s.2 ++ [(ls1Map.getD p.1 0, ls2Map.getD p.2 0)])
      else (s.1 + pen, s.2))
    st

/-- The leftover LS1 rows of `BipartiteMatching`. -/
def bmLeft1 (LS1 LS2 : List Line) : List (Nat × Line) :=
  leftover LS1 (hashLoop LS1 LS2).ls1Matched

/-- The leftover LS2 columns of `BipartiteMatching`. -/
def bmLeft2 (LS1 LS2 : List Line) : List (Nat × Line) :=
  leftover LS2 (hashLoop LS1 LS2).ls2Matched

/-- The cost matrix handed to the munkres solver. -/
def bmMatrix (LS1 LS2 : List Line) (pvm : ParamValueMap) (noOfAttributes : Nat) :
    List (List Int) :=
  similarityMatrix (lineScoreFor noOfAttributes)
    ((bmLeft1 LS1 LS2).map (fun p => p.2)) ((bmLeft2 LS1 LS2).map (fun p => p.2)) pvm

/-- The pairs returned by the solver; the solver runs only when the
matrix is non-empty (PrefixList.py 229-231). -/
def bmIndices (LS1 LS2 : List Line) (pvm : ParamValueMap) (noOfAttributes : Nat)
    (solver : List (List Int) → List (Nat × Nat)) : List (Nat × Nat) :=
  if 0 < (bmMatrix LS1 LS2 pvm noOfAttributes).length then
    solver (bmMatrix LS1 LS2 pvm noOfAttributes)
  else []

/-- `PrefixList.BipartiteMatching` (PrefixList.py 174-239), with the
external munkres solver abstracted as `solver`.  `ACL.BipartiteMatching`
delegates to this function. -/
def BipartiteMatching (LS1 LS2 : List Line) (pvm : ParamValueMap) (noOfAttributes : Nat)
    (solver : List (List Int) → List (Nat × Nat)) : Int × List (Nat × Nat) :=
  let pen := linePenaltyFor noOfAttributes
  let r := assignFold (bmMatrix LS1 LS2 pvm noOfAttributes) pen
    ((bmLeft1 LS1 LS2).map (fun p => p.1)) ((bmLeft2 LS1 LS2).map (fun p => p.1))
    (bmIndices LS1 LS2 pvm noOfAttributes solver) (0, (hashLoop LS1 LS2).matched)
  (r.1 + pen * (((LS1.length : Int) - (LS2.length : Int)).natAbs : Int), r.2)

/-- The sum of the kept (non-INFINITY) solver match costs. -/
def keptCost (mat : List (List Int)) : List (Nat × Nat) → Int
  | [] => 0
  | p :: rest =>
      (if matAt mat p.1 p.2 ≠ INFINITY then matAt mat p.1 p.2 else 0) + keptCost mat rest

/-- The number of solver assignments discarded because their cost is
INFINITY. -/
def discardedCount (mat : List (List Int)) (ind : List (Nat × Nat)) : Nat :=
  (ind.filter (fun p => decide (matAt mat p.1 p.2 = INFINITY))).length

/-- Invariant of the LS1 hash buckets: keys are pairwise distinct,
buckets are non-empty and duplicate-free, and hold positions below `n`
whose lines hash exactly to the bucket key. -/
structure HMInv (LS1 : List Line) (n : Nat) (hm : HMap) : Prop where
  keys_nodup : (hm.map (fun e => e.1)).Nodup
  nonempty : ∀ e ∈ hm, e.2 ≠ []
  bnodup : ∀ e ∈ hm, e.2.Nodup
  elems : ∀ e ∈ hm, ∀ i ∈ e.2, i < n ∧ frozenItems (LS1.getD i []) = e.1

/-- Invariant of the shortcut loop after processing the first `j` lines
of LS2: the matched pairs form an injective partial matching of
hash-equal lines, and the buckets hold only unclaimed LS1 positions. -/
structure LoopInv (LS1 LS2 : List Line) (j : Nat) (st : HashLoopState) : Prop where
  hminv : HMInv LS1 LS1.length st.hmap
  ls1m : st.ls1Matched = st.matched.map Prod.fst
  ls2m : st.ls2Matched = st.matched.map Prod.snd
  fst_nodup : (st.matched.map Prod.fst).Nodup
  snd_nodup : (st.matched.map Prod.snd).Nodup
  fst_lt : ∀ p ∈ st.matched, p.1 < LS1.length
  snd_lt : ∀ p ∈ st.matched, p.2 < j
  keys_eq : ∀ p ∈ st.matched,
    frozenItems (LS1.getD p.1 []) = frozenItems (LS2.getD p.2 [])
  fresh : ∀ e ∈ st.hmap, ∀ i ∈ e.2, i ∉ st.ls1Matched

end PrefixList

/-- A valid output of the rectangular minimum-weight assignment solver:
pairwise distinct in-range rows and columns, of maximal cardinality. -/
def ValidAssignment (rows cols : Nat) (ind : List (Nat × Nat)) : Prop :=
  (∀ p ∈ ind, p.1 < rows ∧ p.2 < cols) ∧
  (ind.map Prod.fst).Nodup ∧ (ind.map Prod.snd).Nodup ∧
  ind.length = min rows cols

/-- A concrete solver for 1-by-1 matrices: the assignment (0, 0). -/
def diagSolver : List (List Int) → List (Nat × Nat) := fun _ => [(0, 0)]

/-- Python `dict.get(k)` over an association list. -/
def getAssoc {κ α : Type} [DecidableEq κ] (m : List (κ × α)) (k : κ) : Option α :=
  (m.find? (fun e => decide (e.1 = k))).map (fun e => e.2)

/-- Python `dict[k] = v`: overwrite the binding in place (dict keys are
unique, so replacing the first binding is the overwrite), or append a
new binding. -/
def setAssoc {κ α : Type} [DecidableEq κ] : List (κ × α) → κ → α → List (κ × α)
  | [], k, v => [(k, v)]
  | e :: rest, k, v => if e.1 = k then (k, v) :: rest else e :: setAssoc rest k v

/-- Python `k in dict`. -/
def hasKey {κ α : Type} [DecidableEq κ] (m : List (κ × α)) (k : κ) : Bool :=
  m.any (fun e => decide (e.1 = k))

/-- `commonFunctions.ParametersLinesMap` (commonFunctions.py 20-28).
`predicates` and `groupsList` are `None` until the minimizer assigns
them; they are modelled as initially empty and are never read before
being assigned. -/
structure ParametersLinesMap where
  counter : Nat
  parameters : List (String × List (String × PyVal))
  lineMapping : List (String × List Int)
  predicates : List (String × List Int)
  groupsList : List (List Int × List String)
deriving DecidableEq, Repr

/-- `parameterDistribution` (commonFunctions.py 30-38).  The Counter per
parameter keeps exactly the key-membership information the callers
query, so the value lists stand in for the Counters. -/
def ParametersLinesMap.parameterDistribution (pl : ParametersLinesMap) : ParamValueMap :=
  pl.parameters.foldl
    (fun pvm dev =>
      dev.2.foldl
        (fun pvm2 pv =>
          match getAssoc pvm2 pv.1 with
          | some vals => setAssoc pvm2 pv.1 (vals ++ [pv.2])
          | none => pvm2 ++ [(pv.1, [pv.2])])
        pvm)
    []

/-- `addParameter` (commonFunctions.py 40-43): give every device other
than `newDevice` the value `value` for `param`. -/
def ParametersLinesMap.addParameter (pl : ParametersLinesMap) (param : String)
    (value : PyVal) (newDevice : String) : ParametersLinesMap :=
  { pl with
    parameters := pl.parameters.map
      (fun dev => if dev.1 ≠ newDevice then (dev.1, setAssoc dev.2 param value) else dev) }

/-- `remapLineNumbers` (commonFunctions.py 45-50). -/
def ParametersLinesMap.remapLineNumbers (pl : ParametersLinesMap)
    (oldtoNew : List (Int × Int)) : ParametersLinesMap :=
  { pl with
    lineMapping := pl.lineMapping.map
      (fun dev => (dev.1, dev.2.map
        (fun x => match getAssoc oldtoNew x with | some y => y | none => x))) }

/-- `parameters[device][param] = v`; the driver guarantees the device
key exists (it is created before every merge), and a missing key is
totalised as creating the entry. -/
def setParam (ps : List (String × List (String × PyVal))) (device param : String)
    (v : PyVal) : List (String × List (String × PyVal)) :=
  if hasKey ps device then
    ps.map (fun dev => if dev.1 = device then (dev.1, setAssoc dev.2 param v) else dev)
  else ps ++ [(device, [(param, v)])]

/-- The integer at the line-number key -1 (always an int for lines built
by the program; other shapes are totalised as 0). -/
def Line.idNum (l : Line) : Int :=
  match l.get (-1) with
  | some (.int n) => n
  | _ => 0

/-- The string under an `Option PyVal` known to be a string (the lookup
key `tLine[attribute]` in `paramValueMap`). -/
def strOf : Option PyVal → String
  | some (.str s) => s
  | _ => ""

namespace PrefixList

/-- One attribute of the matched-pair merge loop (PrefixList.py
274-293). -/
def mergeAttrStep (pvm : ParamValueMap) (device : String) (tLine dLine : Line)
    (k : Int) (st : Line × ParametersLinesMap) : Line × ParametersLinesMap :=
  let line := st.1
  let pl := st.2
  let tv := tLine.get k
  let dv := dLine.get k
  if truthy tv && truthy dv then
    if tv ≠ dv then
      if pvmLookup pvm tv = none then
        let param := "P" ++ toString pl.counter
        let pl2 := { pl with
          counter := pl.counter + 1
          parameters := setParam pl.parameters device param (dv.getD (.str "")) }
        (line.set k (.str param), pl2.addParameter param (tv.getD (.str "")) device)
      else
        (line, { pl with
          parameters := setParam pl.parameters device (strOf tv) (dv.getD (.str "")) })
    else (line, pl)
  else
    if truthy dv then
      let param := "P" ++ toString pl.counter
      let pl2 := { pl with
        counter := pl.counter + 1
        parameters := setParam pl.parameters device param (dv.getD (.str "")) }
      (line.set k (.str param), pl2.addParameter param (.str "") device)
    else (line, pl)

/-- Merging one matched line pair: the attribute loop of PrefixList.py
273-293, starting from a copy of the template line. -/
def mergeMatchedLine (pvm : ParamValueMap) (device : String) (noOfAttributes : Nat)
    (tLine dLine : Line) (pl : ParametersLinesMap) : Line × ParametersLinesMap :=
  (List.range noOfAttributes).foldl
    (fun st k => mergeAttrStep pvm device tLine dLine (Int.ofNat k) st)
    (tLine, pl)

/-- The indices of a line sequence that do not occur in the matching
(PrefixList.py 246-252). -/
def leftoutOf (n : Nat) (used : List Nat) : List Nat :=
  (List.range n).filter (fun i => decide (i ∉ used))

/-- The accumulated state of `MergeLines`. -/
structure MergeRes where
  combined : List Line
  lineNum : Int
  pl : ParametersLinesMap
  oldtoNew : List (Int × Int)
  newDeviceLines : List Int

/-- Pass 1 of `MergeLines` (PrefixList.py 254-260): a template line not
in the matching is renumbered, recorded in the old-to-new map, and
emitted; it is not added to the new device lines. -/
def pass1Step (templateLines : List Line) (s : MergeRes) (i : Nat) : MergeRes :=
  let line := templateLines.getD i []
  { s with
    combined := s.combined ++ [line.set (-1) (.int s.lineNum)]
    oldtoNew := setAssoc s.oldtoNew line.idNum s.lineNum
    lineNum := s.lineNum + 1 }

/-- Pass 2 of `MergeLines` (PrefixList.py 262-268): a device line not in
the matching is renumbered, added to the new device lines, and emitted;
no old-to-new entry is recorded. -/
def pass2Step (deviceLines : List Line) (s : MergeRes) (i : Nat) : MergeRes :=
  let line := deviceLines.getD i []
  { s with
    combined := s.combined ++ [line.set (-1) (.int s.lineNum)]
    newDeviceLines := s.newDeviceLines ++ [s.lineNum]
    lineNum := s.lineNum + 1 }

/-- Pass 3 of `MergeLines` (PrefixList.py 270-298): a matched pair is
merged attribute by attribute, renumbered, recorded in the old-to-new
map under the template line's old identity, and added to the new device
lines. -/
def pass3Step (pvm : ParamValueMap) (device : String) (noOfAttributes : Nat)
    (templateLines deviceLines : List Line) (s : MergeRes) (p : Nat × Nat) : MergeRes :=
  let tLine := templateLines.getD p.1 []
  let dLine := deviceLines.getD p.2 []
  let r := mergeMatchedLine pvm device noOfAttributes tLine dLine s.pl
  { combined := s.combined ++ [r.1.set (-1) (.int s.lineNum)]
    lineNum := s.lineNum + 1
    pl := r.2
    oldtoNew := setAssoc s.oldtoNew r.1.idNum s.lineNum
    newDeviceLines := s.newDeviceLines ++ [s.lineNum] }

/-- `PrefixList.MergeLines` (PrefixList.py 242-300).  The three passes
iterate over `enumerate(templateLines)` and `enumerate(deviceLines)`
keeping only the left-out indices, which equals folding over the sorted
left-out index lists. -/
def MergeLines (templateLines deviceLines : List Line) (lineNum : Int)
    (pl : ParametersLinesMap) (matching : List (Nat × Nat))
    (oldtoNew : List (Int × Int)) (newDeviceLines : List Int) (device : String)
    (noOfAttributes : Nat) : MergeRes :=
  let paramValueMap := pl.parameterDistribution
  let templateLeftout := leftoutOf templateLines.length (matching.map Prod.fst)
  let deviceLeftout := leftoutOf deviceLines.length (matching.map Prod.snd)
  let s1 := templateLeftout.foldl (pass1Step templateLines)
    ⟨[], lineNum, pl, oldtoNew, newDeviceLines⟩
  let s2 := deviceLeftout.foldl (pass2Step deviceLines) s1
  matching.foldl (pass3Step paramValueMap device noOfAttributes templateLines deviceLines) s2

end PrefixList

/-- Map with a running integer counter, used to describe the renumbered
output of the merge passes. -/
def mapWithCtr {α β : Type} (f : Int → α → β) : Int → List α → List β
  | _, [] => []
  | n, x :: rest => f n x :: mapWithCtr f (n + 1) rest

/-- A block: a same-action run of lines.  Both flavors represent the
action as `{"type": action}`; the single string field models it. -/
structure Block where
  action : String
  lines : List Line
deriving DecidableEq, Repr

/-- A parsed segment (the `PrefixList` / `ACL` class minus rendering):
name, owning device, vendor format tag, ordered blocks. -/
structure Segment where
  name : String
  deviceName : String
  configurationFormat : String
  blocks : List Block
deriving DecidableEq, Repr

/-- `str.split(sep)` for a single-character separator (the only kind the
source uses), as structural recursion over the character list so that
the kernel can evaluate it. -/
def splitChars (c : Char) : List Char → List (List Char)
  | [] => [[]]
  | x :: rest =>
      if x = c then [] :: splitChars c rest
      else
        match splitChars c rest with
        | [] => [[x]]
        | h :: t => (x :: h) :: t

/-- Python `s.split(c)` for a one-character separator. -/
def pySplit (s : String) (c : Char) : List String :=
  (splitChars c s.data).map (fun l => String.mk l)

/-- Python `c in s` for a single character. -/
def pyContains (s : String) (c : Char) : Bool :=
  s.data.any (fun x => x = c)

namespace PrefixList

/-- One prefix-list JSON line as the parser delivers it
(`{action, ipWildcard, lengthRange}`). -/
structure PLEntry where
  action : String
  ipWildcard : String
  lengthRange : String
deriving DecidableEq, Repr

/-- A prefix-list segment JSON: its list of lines. -/
abbrev PLJson := List PLEntry

/-- Encoding of one prefix entry as a line (PrefixList.py 53-77).
Unpacking `lengthRange.split("-")` is totalised with "" where the source
would raise on a malformed range. -/
def plLine (num : Int) (e : PLEntry) : Line :=
  let parts := pySplit e.lengthRange '-'
  let l2 := Line.set (Line.set [(-1, .int num)] 1 (.str (parts.getD 0 "")))
    2 (.str (parts.getD 1 ""))
  if ¬ pyContains e.ipWildcard ':' then
    let l4 := Line.set (Line.set l2 (-2) (.int 0)) 0
      (.str (if pyContains e.ipWildcard '/' then (pySplit e.ipWildcard '/').getD 1 ""
             else "32"))
    let pfxIP := (pySplit e.ipWildcard '/').getD 0 ""
    let l5 := ((pySplit pfxIP '.').foldl
      (fun (st : Line × Int) oct => (Line.set st.1 (st.2 + 3) (.str oct), st.2 + 1))
      (l4, 0)).1
    Line.set (Line.set (Line.set (Line.set l5 7 (.str "0")) 8 (.str "0"))
      9 (.str "0")) 10 (.str "0")
  else
    let l4 := Line.set (Line.set l2 (-2) (.int 1)) 0
      (.str (if pyContains e.ipWildcard '/' then (pySplit e.ipWildcard '/').getD 1 ""
             else "128"))
    let pfxIP := (pySplit e.ipWildcard '/').getD 0 ""
    ((pySplit pfxIP ':').foldl
      (fun (st : Line × Int) oct => (Line.set st.1 (st.2 + 3) (.str oct), st.2 + 1))
      (l4, 0)).1

/-- The `Block` constructor (PrefixList.py 48-77): number the entries
with the running counter and encode each one. -/
def plBlock (startNum : Int) (action : String) (entries : List PLEntry) : Block :=
  ⟨action, mapWithCtr plLine startNum entries⟩

/-- `PrefixList.createBlocks` (PrefixList.py 96-110): group consecutive
same-action entries into blocks.  An empty action string behaves like
the unset `None` of the source truthiness test. -/
def createBlocks (pj : PLJson) : List Block :=
  let fin := pj.enum.foldl
    (fun (st : String × List PLEntry × Int × List Block) ie =>
      let presentAction := st.1
      let block := st.2.1
      let startNum := st.2.2.1
      let blocks := st.2.2.2
      if presentAction = "" then
        (ie.2.action, block ++ [ie.2], startNum, blocks)
      else if presentAction ≠ ie.2.action then
        (ie.2.action, [ie.2], (ie.1 : Int),
          blocks ++ [plBlock startNum presentAction block])
      else
        (presentAction, block ++ [ie.2], startNum, blocks))
    ("", [], 0, [])
  fin.2.2.2 ++ [plBlock fin.2.2.1 fin.1 fin.2.1]

/-- The `PrefixList` class constructor (PrefixList.py 83-94). -/
def mkSegment (name device : String) (pj : PLJson) (fmt : String) : Segment :=
  ⟨name, device, fmt, createBlocks pj⟩

/-- `PrefixList.GapPenalty` (PrefixList.py 149-151). -/
def GapPenalty (b : Block) : Int := (b.lines.length : Int) * LINE_PENALTY

/-- `PrefixList.LineSequence` (PrefixList.py 154-156). -/
def LineSequence (b : Block) : List Line := b.lines

end PrefixList

namespace ACL

/-- `ACL.GapPenalty` (ACL.py 310-312). -/
def GapPenalty (b : Block) : Int := (b.lines.length : Int) * LINE_PENALTY

/-- `ACL.LineSequence` (ACL.py 315-317). -/
def LineSequence (b : Block) : List Line := b.lines

end ACL

/-- The default block used to totalise out-of-range list reads (the
source never reads out of range). -/
def dfltBlock : Block := ⟨"", []⟩

namespace MetaTemplater

/-- `commonFunctions.matrixCell` (commonFunctions.py 280-292). -/
structure matrixCell where
  score : Int
  pointer : List Int
  matchedLines : List (Nat × Nat)
deriving DecidableEq, Repr

/-- `MisMatchScore` (MetaTemplater.py 14-31): INFINITY for blocks whose
actions differ, otherwise the flavor's bipartite matcher over the line
sequences (`GetLineSequence` is `.lines` for both flavors). -/
def MisMatchScore (block1 block2 : Block) (pvm : ParamValueMap)
    (noOfAttributes : Nat) (solver : List (List Int) → List (Nat × Nat)) :
    Int × List (Nat × Nat) :=
  if block1.action ≠ block2.action then (INFINITY, [])
  else PrefixList.BipartiteMatching block1.lines block2.lines pvm noOfAttributes solver

/-- The alignment dynamic program of `AlignSequences` (MetaTemplater.py
42-89), as a function of the cell coordinates; `gapP` and `subst` are
the flavor functions handed to the aligner. -/
def dpCell (bs1 bs2 : List Block) (gapP : Block → Int)
    (subst : Block → Block → Int × List (Nat × Nat)) : Nat → Nat → matrixCell
  | 0, 0 => ⟨0, [-1], []⟩
  | i + 1, 0 =>
      ⟨(dpCell bs1 bs2 gapP subst i 0).score + gapP (bs1.getD i dfltBlock), [0], []⟩
  | 0, j + 1 =>
      ⟨(dpCell bs1 bs2 gapP subst 0 j).score + gapP (bs2.getD j dfltBlock), [0], []⟩
  | i + 1, j + 1 =>
      let ms := subst (bs1.getD i dfltBlock) (bs2.getD j dfltBlock)
      let d := (dpCell bs1 bs2 gapP subst i j).score + ms.1
      let g1 := (dpCell bs1 bs2 gapP subst i (j + 1)).score + gapP (bs1.getD i dfltBlock)
      let g2 := (dpCell bs1 bs2 gapP subst (i + 1) j).score + gapP (bs2.getD j dfltBlock)
      if d ≤ g1 then
        if d ≤ g2 then ⟨d, [1], ms.2⟩ else ⟨g2, [2], []⟩
      else
        if g1 ≤ g2 then ⟨g1, [3], []⟩ else ⟨g2, [2], []⟩
  termination_by i j => (i, j)

/-- The diagonal option of the cell `(i+1, j+1)`. -/
def dpDiag (bs1 bs2 : List Block) (gapP : Block → Int)
    (subst : Block → Block → Int × List (Nat × Nat)) (i j : Nat) : Int :=
  (dpCell bs1 bs2 gapP subst i j).score +
    (subst (bs1.getD i dfltBlock) (bs2.getD j dfltBlock)).1

/-- The gap option consuming the block of the first sequence. -/
def dpGap1 (bs1 bs2 : List Block) (gapP : Block → Int)
    (subst : Block → Block → Int × List (Nat × Nat)) (i j : Nat) : Int :=
  (dpCell bs1 bs2 gapP subst i (j + 1)).score + gapP (bs1.getD i dfltBlock)

/-- The gap option consuming the block of the second sequence. -/
def dpGap2 (bs1 bs2 : List Block) (gapP : Block → Int)
    (subst : Block → Block → Int × List (Nat × Nat)) (i j : Nat) : Int :=
  (dpCell bs1 bs2 gapP subst (i + 1) j).score + gapP (bs2.getD j dfltBlock)

/-- The traceback loop of `AlignSequences` (MetaTemplater.py 98-116); it
fails (`ValueError`) on an undefined pointer, which never happens for
cells produced by the fill. -/
def tbMain (dp : Nat → Nat → matrixCell) (bs1 bs2 : List Block) :
    Nat → Nat → Option (List (Option Block) × List (Option Block) ×
      List (List (Nat × Nat)) × Nat × Nat)
  | 0, j => some ([], [], [], 0, j)
  | i + 1, 0 => some ([], [], [], i + 1, 0)
  | i + 1, j + 1 =>
      if (dp (i + 1) (j + 1)).pointer = [1] then
        match tbMain dp bs1 bs2 i j with
        | none => none
        | some (a1, a2, lm, fi, fj) =>
            some (some (bs1.getD i dfltBlock) :: a1, some (bs2.getD j dfltBlock) :: a2,
              (dp (i + 1) (j + 1)).matchedLines :: lm, fi, fj)
      else if (dp (i + 1) (j + 1)).pointer = [2] then
        match tbMain dp bs1 bs2 (i + 1) j with
        | none => none
        | some (a1, a2, lm, fi, fj) =>
            some (none :: a1, some (bs2.getD j dfltBlock) :: a2, lm, fi, fj)
      else if (dp (i + 1) (j + 1)).pointer = [3] then
        match tbMain dp bs1 bs2 i (j + 1) with
        | none => none
        | some (a1, a2, lm, fi, fj) =>
            some (some (bs1.getD i dfltBlock) :: a1, none :: a2, lm, fi, fj)
      else none
  termination_by i j => (i, j)

/-- The two padding loops of `AlignSequences` (MetaTemplater.py
118-132): `cnt` iterations, consuming remaining blocks while the index
is positive and padding with gaps once it reaches zero. -/
def padLoop (bs : List Block) : Nat → Nat → List (Option Block)
  | _, 0 => []
  | i, cnt + 1 =>
      match i with
      | ii + 1 => some (bs.getD ii dfltBlock) :: padLoop bs ii cnt
      | 0 => none :: padLoop bs 0 cnt

/-- `AlignSequences` (MetaTemplater.py 34-137), with the munkres solver
abstracted; returns `none` where the source would raise. -/
def AlignSequences (bs1 bs2 : Segment) (pl : ParametersLinesMap)
    (gapP : Block → Int) (noOfAttributes : Nat)
    (solver : List (List Int) → List (Nat × Nat)) :
    Option (List (Option Block) × List (Option Block) × List (List (Nat × Nat))) :=
  let m := bs1.blocks.length
  let n := bs2.blocks.length
  let pvm := pl.parameterDistribution
  let dp := dpCell bs1.blocks bs2.blocks gapP
    (fun b1 b2 => MisMatchScore b1 b2 pvm noOfAttributes solver)
  match tbMain dp bs1.blocks bs2.blocks m n with
  | none => none
  | some (a1, a2, lm, fi, fj) =>
      some ((a1 ++ padLoop bs1.blocks fi (m + n - a1.length + 1)).reverse,
        (a2 ++ padLoop bs2.blocks fj (m + n - a1.length + 1)).reverse,
        lm.reverse)

end MetaTemplater

/-- Device A segment of the spec scenario `permit 10.0.0.0/8 exact`. -/
def c6segA : Segment :=
  PrefixList.mkSegment "X" "A" [⟨"PERMIT", "10.0.0.0/8", "8-8"⟩] "cisco"

/-- Device B segment of the spec scenario `permit 10.1.0.0/8 exact`. -/
def c6segB : Segment :=
  PrefixList.mkSegment "X" "B" [⟨"PERMIT", "10.1.0.0/8", "8-8"⟩] "cisco"

/-- The bookkeeping just before B is merged into the meta-template. -/
def c6pl0 : ParametersLinesMap := ⟨0, [("A", []), ("B", [])], [("A", [0])], [], []⟩

/-- The concrete merge of the two one-line prefix-lists, using the
matching produced by the bipartite matcher itself. -/
def c6merge : PrefixList.MergeRes :=
  PrefixList.MergeLines (c6segA.blocks.getD 0 ⟨"", []⟩).lines
    (c6segB.blocks.getD 0 ⟨"", []⟩).lines 0 c6pl0
    (PrefixList.BipartiteMatching (c6segA.blocks.getD 0 ⟨"", []⟩).lines
      (c6segB.blocks.getD 0 ⟨"", []⟩).lines c6pl0.parameterDistribution 11 diagSolver).2
    [] [] "B" 11

/-- Concrete lines and bookkeeping for the C7 witness. -/
def c7t0 : Line := [(-1, .int 0), (0, .str "a")]

def c7t1 : Line := [(-1, .int 1), (0, .str "b")]

def c7d0 : Line := [(-1, .int 0), (0, .str "c")]

def c7pl : ParametersLinesMap := ⟨0, [("A", []), ("B", [])], [("A", [0, 1])], [], []⟩

/-- A concrete ACL line for the protocol-mismatch scenario: protocol tcp,
line number 0, and all twenty attributes equal to "1". -/
def c3tLine : Line :=
  [(-2, .str "tcp"), (-1, .int 0)] ++
    (List.range 20).map (fun i => ((i : Int), PyVal.str "1"))

/-- The same ACL line with protocol udp. -/
def c3dLine : Line :=
  [(-2, .str "udp"), (-1, .int 0)] ++
    (List.range 20).map (fun i => ((i : Int), PyVal.str "1"))

/-- The template-side one-line ACL block. -/
def c3blockT : Block := ⟨"PERMIT", [c3tLine]⟩

/-- The device-side one-line ACL block with the same action. -/
def c3blockD : Block := ⟨"PERMIT", [c3dLine]⟩

/-- Whether a fallible computation succeeded. -/
def exceptOk {ε α : Type} : Except ε α → Bool
  | .ok _ => true
  | .error _ => false

/-- The device loop at the head of `StructuredGeneralization`
(MetaTemplater.py 157-161): each device's `GetBlockSequence` may raise
(e.g. `NotImplementedError` in `ACL.getSrcOrDstIps`, ACL.py 61-85); the
exception propagates out of the loop, so the first failing device aborts
the whole call and no later device is processed. -/
def SGdeviceLoop {σ : Type} (gbs : String → Except Unit σ) :
    List String → Except Unit (List σ)
  | [] => .ok []
  | dv :: rest =>
      match gbs dv with
      | .error e => .error e
      | .ok s =>
          match SGdeviceLoop gbs rest with
          | .error e => .error e
          | .ok ss => .ok (s :: ss)

/-- The error tally and the successfully templated patterns of the scan
in `main.AllSegments`. -/
structure ScanState (α : Type) where
  errorTally : Nat
  done : List (String × α)

/-- One pattern of the scan loop of `main.AllSegments` (main.py 142-186):
the whole `StructuredGeneralization` call is wrapped in try/except, so on
an exception the `Error` tally is incremented and the scan moves on to
the next pattern. -/
def scanStep {α : Type} (run : String → Except Unit α) (st : ScanState α)
    (p : String) : ScanState α :=
  match run p with
  | .ok a => { st with done := st.done ++ [(p, a)] }
  | .error _ => { st with errorTally := st.errorTally + 1 }

/-- The scan over all patterns (main.py 142-186), flattening the
grouped-by-frequency iteration order into one list of pattern names. -/
def AllSegmentsScan {α : Type} (run : String → Except Unit α)
    (patterns : List String) : ScanState α :=
  patterns.foldl (scanStep run) ⟨0, []⟩

/-- The concrete parser of the C2 scenario: pattern "P" fails on device
"d2" and every other (pattern, device) pair parses to a one-line
segment. -/
def c2gbs : String → String → Except Unit (List Line) :=
  fun p dv =>
    if p = "P" && dv = "d2" then .error () else .ok [[(-1, .int 0)]]

/-- Insertion into a sorted list, for Python's `list.sort()` on line
numbers. -/
def insertSorted {α : Type} [LinearOrder α] (x : α) : List α → List α
  | [] => [x]
  | y :: rest => if x ≤ y then x :: y :: rest else y :: insertSorted x rest

/-- Python `lines.sort()` (commonFunctions.py 99). -/
def pySortList {α : Type} [LinearOrder α] (l : List α) : List α :=
  l.foldr insertSorted []

/-- The group-collection step of `predicateGenerator` (commonFunctions.py
100-109): add the device to the first group with the same sorted line
list, or append a fresh group. -/
def addToGroup {α : Type} [DecidableEq α] :
    List (List α × List String) → List α → String → List (List α × List String)
  | [], lines, dv => [(lines, [dv])]
  | t :: rest, lines, dv =>
      if t.1 = lines then (t.1, t.2 ++ [dv]) :: rest
      else t :: addToGroup rest lines dv

/-- The groups loop of `predicateGenerator` (commonFunctions.py 96-109):
devices grouped by their sorted line-identity lists. -/
def pgGroups {α : Type} [LinearOrder α] (lineMapping : List (String × List α)) :
    List (List α × List String) :=
  lineMapping.foldl (fun gl dv => addToGroup gl (pySortList dv.2) dv.1) []

/-- `bitMap[v]` of `predicateGenerator` (commonFunctions.py 110-120): per
group, one 1 per occurrence of the line in the group's list, else one
0. -/
def bitMapOf (groups : List (List Nat × List String)) (v : Nat) : List Nat :=
  groups.foldl
    (fun acc t =>
      acc ++ (t.1.filter (fun x => decide (x = v))).map (fun _ => 1) ++
        (if v ∈ t.1 then [] else [0]))
    []

/-- The truth-table collection step of `predicateGenerator`
(commonFunctions.py 121-131): append the line to every tuple with the
same bitmap (there is at most one), or append a fresh tuple. -/
def addToTruthAll (stt : List (List Nat × List Nat)) (bm : List Nat) (v : Nat) :
    List (List Nat × List Nat) :=
  if stt.any (fun t => decide (t.1 = bm)) then
    stt.map (fun t => if t.1 = bm then (t.1, t.2 ++ [v]) else t)
  else stt ++ [(bm, [v])]

/-- `sameTruthTable` of `predicateGenerator` (commonFunctions.py
110-131): line identities 0..totalLines grouped by bitmap. -/
def sameTruthTable (groups : List (List Nat × List String)) (totalLines : Nat) :
    List (List Nat × List Nat) :=
  (List.range (totalLines + 1)).foldl
    (fun stt v => addToTruthAll stt (bitMapOf groups v) v) []

/-- The predicate-naming step (commonFunctions.py 132-140): tuples other
than the all-true bitmap get R0, R1, ... and the all-true bitmap gets
A. -/
def pgNameStep (allT : List Nat) (st : List (String × List Nat) × Nat)
    (t : List Nat × List Nat) : List (String × List Nat) × Nat :=
  if t.1 ≠ allT then (st.1 ++ [("R" ++ toString st.2, t.2)], st.2 + 1)
  else (st.1 ++ [("A", t.2)], st.2)

/-- `ParametersLinesMap.predicateGenerator` (commonFunctions.py 95-142):
the predicate map from names to line-identity lists. -/
def pgPredicates (groups : List (List Nat × List String)) (totalLines : Nat) :
    List (String × List Nat) :=
  ((sameTruthTable groups totalLines).foldl
    (pgNameStep (groups.map (fun _ => 1))) ([], 0)).1

/-- The predicate renumbering of `groupAndSortPredicates`
(commonFunctions.py 171-177): every line identity of every predicate is
sent through the old-to-new map built while sorting the blocks (the
source raises on a missing key, totalised here with the identity). -/
def renamePredicates (o2n : List (Nat × Nat)) (preds : List (String × List Nat)) :
    List (String × List Nat) :=
  preds.map (fun p => (p.1, p.2.map (fun l => (getAssoc o2n l).getD l)))

/-- `commonFunctions.checkJSONEquality` (commonFunctions.py 393-400):
walk the existing map; on the first structurally equal JSON record the
router in that entry's set and report equality, otherwise register the
new JSON under the router.  `instanceCheck` is structural equality on
the parsed prefix-list JSON. -/
def cjeAdd : List (String × List String × PrefixList.PLJson) →
    PrefixList.PLJson → String → Bool × List (String × List String × PrefixList.PLJson)
  | [], nj, r => (false, [(r, [], nj)])
  | e :: rest, nj, r =>
      if e.2.2 = nj then (true, (e.1, e.2.1 ++ [r], e.2.2) :: rest)
      else
        let res := cjeAdd rest nj r
        (res.1, e :: res.2)

/-- The running state of the retention loop of
`PrefixList.GetBlockSequence` (PrefixList.py 123-143). -/
structure RetState where
  exactMap : List (String × List String × PrefixList.PLJson)
  retained : List (String × PrefixList.PLJson)
deriving DecidableEq, Repr

/-- One device of the retention loop (PrefixList.py 129-143): parse the
segment; keep it only when its first block is non-empty and no earlier
device registered a byte-equal JSON. -/
def retainStep (name fmt : String) (st : RetState)
    (dvj : String × PrefixList.PLJson) : RetState :=
  if 0 < (PrefixList.mkSegment name dvj.1 dvj.2 fmt).blocks.length ∧
      0 < (((PrefixList.mkSegment name dvj.1 dvj.2 fmt).blocks.headD
        dfltBlock).lines).length then
    if (cjeAdd st.exactMap dvj.2 dvj.1).1 then
      { st with exactMap := (cjeAdd st.exactMap dvj.2 dvj.1).2 }
    else ⟨(cjeAdd st.exactMap dvj.2 dvj.1).2, st.retained ++ [(dvj.1, dvj.2)]⟩
  else st

/-- The retention loop over all devices (the `GetBlockSequence` calls in
MetaTemplater.py 157-161 with PrefixList.py 123-143). -/
def retainedDevices (name fmt : String)
    (devices : List (String × PrefixList.PLJson)) : RetState :=
  devices.foldl (retainStep name fmt) ⟨[], []⟩

/-- The total line count of a parsed segment: the last block's last
line's identity (PrefixList.py 141). -/
def segTotal (seg : Segment) : Int :=
  ((seg.blocks.getLastD dfltBlock).lines.getLastD []).idNum

/-- `lineCountMap.setdefault(l, list()).append(s)` (MetaTemplater.py
160-161). -/
def lcmAdd (m : List (Int × List (String × PrefixList.PLJson))) (k : Int)
    (s : String × PrefixList.PLJson) :
    List (Int × List (String × PrefixList.PLJson)) :=
  if hasKey m k then
    m.map (fun e => if e.1 = k then (e.1, e.2 ++ [s]) else e)
  else m ++ [(k, [s])]

/-- The line-count buckets of the retained devices (MetaTemplater.py
153-161). -/
def lineCountMapOf (name fmt : String)
    (retained : List (String × PrefixList.PLJson)) :
    List (Int × List (String × PrefixList.PLJson)) :=
  retained.foldl
    (fun m dvj => lcmAdd m (segTotal (PrefixList.mkSegment name dvj.1 dvj.2 fmt)) dvj)
    []

/-- Descending insertion of a (bucket size, line count) tuple, for the
`sort(reverse=True)` of MetaTemplater.py 164-166. -/
def insertDescPair (x : Nat × Int) : List (Nat × Int) → List (Nat × Int)
  | [] => [x]
  | y :: rest =>
      if y.1 < x.1 ∨ (x.1 = y.1 ∧ y.2 < x.2) then x :: y :: rest
      else y :: insertDescPair x rest

/-- The templating order (MetaTemplater.py 162-175): buckets sorted by
(size, line count) descending, flattened. -/
def SGorder (m : List (Int × List (String × PrefixList.PLJson))) :
    List (String × PrefixList.PLJson) :=
  (((m.map (fun e => (e.2.length, e.1))).foldr insertDescPair []).map
    (fun t => (getAssoc m t.2).getD [])).flatten

/-- The state of the templating loop of `StructuredGeneralization`
(MetaTemplater.py 168-191): `none` models Python's `None`. -/
structure SGloopState where
  metaTemplate : Option Segment
  pl : Option ParametersLinesMap
  tcount : Nat
deriving DecidableEq, Repr

/-- `range(lineCount+1)` as the initial line mapping of the first
segment's device (MetaTemplater.py 179-181). -/
def intRange (n : Int) : List Int :=
  (List.range n.toNat).map Int.ofNat

/-- One segment of the templating loop (MetaTemplater.py 174-191): the
first segment initialises the meta-template and the bookkeeping; every
later segment is merged into the meta-template (the alignment and
template generation are the flavor functions, abstracted as `mergeF`)
and increments the templating count. -/
def sgStep (mergeF : Segment → Segment → ParametersLinesMap →
      List Block × ParametersLinesMap)
    (name fmt : String) (st : SGloopState) (dvj : String × PrefixList.PLJson) :
    SGloopState :=
  let seg := PrefixList.mkSegment name dvj.1 dvj.2 fmt
  match st.pl, st.metaTemplate with
  | none, _ =>
      { metaTemplate := some { seg with deviceName := "Template" }
        pl := some ⟨0, [(seg.deviceName, [])],
          [(seg.deviceName, intRange (segTotal seg + 1))], [], []⟩
        tcount := st.tcount }
  | some pl, some mt =>
      let pl2 := { pl with parameters := setAssoc pl.parameters seg.deviceName [] }
      let r := mergeF mt seg pl2
      { metaTemplate := some { mt with blocks := r.1 }
        pl := some r.2
        tcount := st.tcount + 1 }
  | some _, none => st

/-- One value of `paramCountMap[param]` (commonFunctions.py 256-266):
add the router under the parameter's value, counting occurrences. -/
def pcmValAdd (vals : List (PyVal × Nat × List String)) (value : PyVal)
    (router : String) : List (PyVal × Nat × List String) :=
  if vals.any (fun e => decide (e.1 = value)) then
    vals.map (fun e => if e.1 = value then (e.1, e.2.1 + 1, e.2.2 ++ [router]) else e)
  else vals ++ [(value, 1, [router])]

/-- One (router, param, value) triple of the `paramCountMap` build
(commonFunctions.py 256-266). -/
def pcmAdd (pcm : List (String × List (PyVal × Nat × List String)))
    (param : String) (value : PyVal) (router : String) :
    List (String × List (PyVal × Nat × List String)) :=
  if hasKey pcm param then
    pcm.map (fun e => if e.1 = param then (e.1, pcmValAdd e.2 value router) else e)
  else pcm ++ [(param, pcmValAdd [] value router)]

/-- `paramCountMap` of `singleParamQuestions` (commonFunctions.py
253-266). -/
def paramCountMap (pl : ParametersLinesMap) :
    List (String × List (PyVal × Nat × List String)) :=
  pl.parameters.foldl
    (fun pcm dev => dev.2.foldl (fun pcm2 pv => pcmAdd pcm2 pv.1 pv.2 dev.1) pcm)
    []

/-- `singleParamQuestions` (commonFunctions.py 253-277), as the list of
(parameter, minority value) reports; the source renders them into one
string, and the callers only test that string against "".  A value is in
minority when `count < SINGLE_PARAM_THRESHOLD * (total / n)` with
threshold 0.09, written exactly over the integers. -/
def singleParamReports (pl : ParametersLinesMap) : List (String × PyVal) :=
  (paramCountMap pl).foldl
    (fun reports e =>
      let total := (e.2.map (fun v => v.2.1)).sum
      let n := e.2.length
      reports ++
        (e.2.filter (fun v => decide (100 * v.2.1 * n < 9 * total))).map
          (fun v => (e.1, v.1)))
    []

/-- The (different, same) router counts of one parameter pair
(commonFunctions.py 238-246). -/
def spuriousCounts (pl : ParametersLinesMap) (pi pj : String) : Nat × Nat :=
  pl.parameters.foldl
    (fun (c : Nat × Nat) dev =>
      match getAssoc dev.2 pi, getAssoc dev.2 pj with
      | some vi, some vj => if vi = vj then (c.1, c.2 + 1) else (c.1 + 1, c.2)
      | _, _ => c)
    (0, 0)

/-- The ordered parameter pairs `(Pi, Pj)` with `i < j < n`
(commonFunctions.py 234-237). -/
def paramPairs (n : Nat) : List (String × String) :=
  ((List.range n).map (fun i =>
    ((List.range n).filter (fun j => decide (i < j))).map
      (fun j => ("P" ++ toString i, "P" ++ toString j)))).flatten

/-- `spuriousParamQuestions` (commonFunctions.py 233-251), as the list
of reported pairs; a pair is reported when
`0 < different ∧ different < SPURIOUS_PARAM_THRESHOLD * (same + different)`
with threshold 0.05, written exactly over the integers. -/
def spuriousParamReports (pl : ParametersLinesMap) : List (String × String) :=
  (paramPairs pl.counter).filter
    (fun pr =>
      let c := spuriousCounts pl pr.1 pr.2
      decide (0 < c.1 ∧ 100 * c.1 < 5 * (c.2 + c.1)))

/-- The classification decision of the driver: the return-`None` gate of
`PrintTemplate` (PrefixList.py 508-520) combined with the code
assignment of `StructuredGeneralization` (MetaTemplater.py 195-215). -/
def SGdecision (pl : ParametersLinesMap) (tc : Nat) : String :=
  if 1 < pl.groupsList.length ∨ singleParamReports pl ≠ [] ∨
      spuriousParamReports pl ≠ [] then "Inconsistent"
  else if tc = 0 then "Exact Consistency"
  else if pl.counter = 0 then "Reorder Consistency"
  else "Consistent"

/-- The driver pipeline of `StructuredGeneralization` (MetaTemplater.py
140-215) for one pattern: retention with the exact-equality fast path,
the frequency-sorted templating loop with the merge machinery abstracted
as `mergeF`, the parameter minimisation abstracted as `minF` except for
`predicateGenerator`, whose groups (the only minimiser output the
decision reads) are computed concretely, and the final classification.
Returns `none` where the source returns the `NotFound` code. -/
def SGresult (mergeF : Segment → Segment → ParametersLinesMap →
      List Block × ParametersLinesMap)
    (minF : Segment → ParametersLinesMap → ParametersLinesMap)
    (name fmt : String) (devices : List (String × PrefixList.PLJson)) :
    Option (String × Nat × ParametersLinesMap) :=
  let st := (SGorder (lineCountMapOf name fmt
      (retainedDevices name fmt devices).retained)).foldl
    (sgStep mergeF name fmt) ⟨none, none, 0⟩
  match st.pl, st.metaTemplate with
  | some pl0, some mt =>
      let pl1 := minF mt pl0
      let pl2 := { pl1 with groupsList := pgGroups pl1.lineMapping }
      some (SGdecision pl2 st.tcount, st.tcount, pl2)
  | _, _ => none

/-- The one-line prefix-list JSON shared by both devices of the C8
fast-path scenario. -/
def c8json : PrefixList.PLJson := [⟨"PERMIT", "10.0.0.0/8", "8-8"⟩]

/-- A merge function for the C8 witness (never invoked on the fast
path). -/
def c8mergeF : Segment → Segment → ParametersLinesMap →
    List Block × ParametersLinesMap :=
  fun _ s pl => (s.blocks, pl)

/-- The pipeline bookkeeping of the C8 fast-path scenario. -/
def c8plf : ParametersLinesMap :=
  ⟨0, [("A", [])], [("A", [0])], [], [([0], ["A"])]⟩

/-- C1, counterexample: the two prefix-list lines differ at the identity
tag (key -2), yet `PrefixList.LineScore` returns 0, not INFINITY — the
prefix-list flavor never inspects the family tag. -/
theorem C1_prefixlist_ignores_family :
    plFamily0Line.get (-2) ≠ plFamily1Line.get (-2) ∧
    PrefixList.LineScore plFamily0Line plFamily1Line [] = 0 ∧
    (0 : Int) ≠ INFINITY := by
  refine ⟨by decide, by decide, by decide⟩

/-- `ACL.LineScore` short-circuits to INFINITY when the protocol tags
(key -2) of the two lines differ. -/
theorem lineScore_infinity_of_tag_ne (a b : Line) (pvm : ParamValueMap)
    (h : a.get (-2) ≠ b.get (-2)) : ACL.LineScore a b pvm = INFINITY := by
  unfold ACL.LineScore
  simp [bne_iff_ne, h]

/-- C1, amended: only the ACL flavor returns INFINITY when the identity
tags (key -2) differ; this holds for every pair of lines and every
parameter-value map. -/
theorem C1_acl_lineScore_infinity (a b : Line) (pvm : ParamValueMap)
    (h : a.get (-2) ≠ b.get (-2)) : ACL.LineScore a b pvm = INFINITY :=
  lineScore_infinity_of_tag_ne a b pvm h

/-- C1 witness: the amended theorem applied to two concrete ACL lines
with different protocols. -/
theorem C1_acl_lineScore_infinity_witness :
    ACL.LineScore [(-2, .str "TCP")] [(-2, .str "UDP")] [] = INFINITY :=
  C1_acl_lineScore_infinity [(-2, .str "TCP")] [(-2, .str "UDP")] [] (by decide)

/-- Two bindings of an association list with distinct keys and the same
key are the same binding. -/
theorem eq_of_nodup_keys {α β : Type} {l : List (α × β)}
    (h : (l.map Prod.fst).Nodup) {p q : α × β} (hp : p ∈ l) (hq : q ∈ l)
    (hk : p.1 = q.1) : p = q := by
  induction l with
  | nil => cases hp
  | cons a rest ih =>
      simp only [List.map_cons, List.nodup_cons] at h
      rcases List.mem_cons.mp hp with hp1 | hp1 <;>
        rcases List.mem_cons.mp hq with hq1 | hq1
      · rw [hp1, hq1]
      · exfalso
        have hmem : q.1 ∈ List.map Prod.fst rest := List.mem_map_of_mem Prod.fst hq1
        exact h.1 (by rw [← hp1, hk]; exact hmem)
      · exfalso
        have hmem : p.1 ∈ List.map Prod.fst rest := List.mem_map_of_mem Prod.fst hp1
        exact h.1 (by rw [← hq1, ← hk]; exact hmem)
      · exact ih h.2 hp1 hq1

/-- For a line with pairwise distinct keys, `Line.get` is membership. -/
theorem Line.get_eq_some_iff {l : Line} (h : (l.map Prod.fst).Nodup)
    {k : Int} {v : PyVal} : l.get k = some v ↔ (k, v) ∈ l := by
  constructor
  · intro hg
    unfold Line.get at hg
    rcases hfind : List.find? (fun p => p.1 == k) l with _ | p
    · rw [hfind] at hg; cases hg
    · rw [hfind] at hg
      have hm := List.mem_of_find?_eq_some hfind
      have hkey : p.1 = k := by
        have := List.find?_some hfind
        simpa using this
      have hv : p.2 = v := by simpa using hg
      have : p = (k, v) := by
        cases p; simp_all
      exact this ▸ hm
  · intro hm
    unfold Line.get
    rcases hfind : List.find? (fun p => p.1 == k) l with _ | p
    · exfalso
      have := List.find?_eq_none.mp hfind (k, v) hm
      simp at this
    · have hp := List.mem_of_find?_eq_some hfind
      have hkey : p.1 = k := by
        have := List.find?_some hfind
        simpa using this
      have hpv : p = (k, v) := eq_of_nodup_keys h hp hm (by simp [hkey])
      rw [hfind, hpv]; rfl

/-- A line with no binding for `k` (with distinct keys). -/
theorem Line.get_eq_none_iff {l : Line} {k : Int} :
    l.get k = none ↔ ∀ v, (k, v) ∉ l := by
  unfold Line.get
  constructor
  · intro hg v hm
    rcases hfind : List.find? (fun p => p.1 == k) l with _ | p
    · have := List.find?_eq_none.mp hfind (k, v) hm
      simp at this
    · rw [hfind] at hg; cases hg
  · intro hnone
    rcases hfind : List.find? (fun p => p.1 == k) l with _ | p
    · rw [hfind]; rfl
    · exfalso
      have hp := List.mem_of_find?_eq_some hfind
      have hkey : p.1 = k := by
        have := List.find?_some hfind
        simpa using this
      exact hnone p.2 (by cases p; simp_all)

/-- Membership in the frozen items of a line. -/
theorem mem_frozenItems {l : Line} {k : Int} {v : PyVal} :
    (k, v) ∈ frozenItems l ↔ (k, v) ∈ l ∧ k ≠ -1 := by
  unfold frozenItems
  simp [List.mem_filter]

/-- Lines with equal frozen item sets agree at every key other than the
line-number key -1. -/
theorem get_eq_of_frozenItems_eq {a b : Line}
    (ha : (a.map Prod.fst).Nodup) (hb : (b.map Prod.fst).Nodup)
    (h : frozenItems a = frozenItems b) :
    ∀ k : Int, k ≠ -1 → a.get k = b.get k := by
  intro k hk
  rcases hga : a.get k with _ | v
  · rcases hgb : b.get k with _ | w
    · rfl
    · exfalso
      have hwb : (k, w) ∈ b := (Line.get_eq_some_iff hb).mp hgb
      have : (k, w) ∈ frozenItems a := h ▸ mem_frozenItems.mpr ⟨hwb, hk⟩
      have : (k, w) ∈ a := (mem_frozenItems.mp this).1
      exact Line.get_eq_none_iff.mp hga w this
  · have hva : (k, v) ∈ a := (Line.get_eq_some_iff ha).mp hga
    have : (k, v) ∈ frozenItems b := h ▸ mem_frozenItems.mpr ⟨hva, hk⟩
    have : (k, v) ∈ b := (mem_frozenItems.mp this).1
    exact ((Line.get_eq_some_iff hb).mpr this).symm

/-- Splitting a `drop` that produced a cons cell. -/
theorem drop_cons_split {α : Type} {l : List α} {j : Nat} {x : α} {rest : List α}
    (h : l.drop j = x :: rest) :
    l.get? j = some x ∧ l.drop (j + 1) = rest := by
  induction j generalizing l with
  | zero => cases l <;> simp_all
  | succ n ih =>
      cases l with
      | nil => simp at h
      | cons a as =>
          simp only [List.drop_succ_cons] at h
          simpa using ih h

/-- `getD` from `get?`. -/
theorem getD_of_get? {α : Type} {l : List α} {j : Nat} {x d : α}
    (h : l.get? j = some x) : l.getD j d = x := by
  simp [List.getD_eq_getD_get?, ← List.get?_eq_getElem?, h]

namespace PrefixList

theorem assignFold_score (mat : List (List Int)) (pen : Int) (m1 m2 : List Nat)
    (ind : List (Nat × Nat)) (s : Int) (mt : List (Nat × Nat)) :
    (assignFold mat pen m1 m2 ind (s, mt)).1 =
      s + keptCost mat ind + pen * (discardedCount mat ind : Int) := by
  induction ind generalizing s mt with
  | nil => simp [assignFold, keptCost, discardedCount]
  | cons p rest ih =>
      by_cases h : matAt mat p.1 p.2 = INFINITY
      · have : (assignFold mat pen m1 m2 (p :: rest) (s, mt)) =
            assignFold mat pen m1 m2 rest (s + pen, mt) := by
          simp [assignFold, h]
        rw [this, ih]
        simp [keptCost, discardedCount, h]
        ring
      · have : (assignFold mat pen m1 m2 (p :: rest) (s, mt)) =
            assignFold mat pen m1 m2 rest
              (s + matAt mat p.1 p.2, mt ++ [(m1.getD p.1 0, m2.getD p.2 0)]) := by
          simp [assignFold, h]
        rw [this, ih]
        simp [keptCost, discardedCount, h]
        ring

theorem assignFold_matched (mat : List (List Int)) (pen : Int) (m1 m2 : List Nat)
    (ind : List (Nat × Nat)) (s : Int) (mt : List (Nat × Nat)) :
    (assignFold mat pen m1 m2 ind (s, mt)).2 =
      mt ++ (ind.filter (fun p => decide (matAt mat p.1 p.2 ≠ INFINITY))).map
        (fun p => (m1.getD p.1 0, m2.getD p.2 0)) := by
  induction ind generalizing s mt with
  | nil => simp [assignFold]
  | cons p rest ih =>
      by_cases h : matAt mat p.1 p.2 = INFINITY
      · have : (assignFold mat pen m1 m2 (p :: rest) (s, mt)) =
            assignFold mat pen m1 m2 rest (s + pen, mt) := by
          simp [assignFold, h]
        rw [this, ih]
        simp [h]
      · have : (assignFold mat pen m1 m2 (p :: rest) (s, mt)) =
            assignFold mat pen m1 m2 rest
              (s + matAt mat p.1 p.2, mt ++ [(m1.getD p.1 0, m2.getD p.2 0)]) := by
          simp [assignFold, h]
        rw [this, ih]
        simp [h]

theorem leftoverAux_lb (m : List Nat) :
    ∀ (suffix : List Line) (i : Nat), ∀ p ∈ leftoverAux m i suffix, i ≤ p.1 := by
  intro suffix
  induction suffix with
  | nil => intro i p hp; simp [leftoverAux] at hp
  | cons l rest ih =>
      intro i p hp
      unfold leftoverAux at hp
      by_cases hi : i ∈ m
      · simp only [if_pos hi] at hp
        exact Nat.le_of_succ_le (ih (i + 1) p hp)
      · simp only [if_neg hi] at hp
        rcases List.mem_cons.mp hp with h1 | h1
        · rw [h1]
        · exact Nat.le_of_succ_le (ih (i + 1) p h1)

theorem leftoverAux_mem (FULL : List Line) (m : List Nat) :
    ∀ (suffix : List Line) (i : Nat), suffix = FULL.drop i →
      ∀ p ∈ leftoverAux m i suffix,
        p.1 < FULL.length ∧ p.1 ∉ m ∧ FULL.get? p.1 = some p.2 := by
  intro suffix
  induction suffix with
  | nil => intro i _ p hp; simp [leftoverAux] at hp
  | cons l rest ih =>
      intro i hdrop p hp
      obtain ⟨hget, hrest⟩ := drop_cons_split hdrop.symm
      unfold leftoverAux at hp
      by_cases hi : i ∈ m
      · simp only [if_pos hi] at hp
        exact ih (i + 1) hrest.symm p hp
      · simp only [if_neg hi] at hp
        rcases List.mem_cons.mp hp with h1 | h1
        · subst h1
          refine ⟨?_, hi, hget⟩
          exact (List.get?_eq_some.mp hget).1
        · exact ih (i + 1) hrest.symm p h1

theorem leftoverAux_fst_sorted (m : List Nat) :
    ∀ (suffix : List Line) (i : Nat),
      ((leftoverAux m i suffix).map Prod.fst).Pairwise (· < ·) := by
  intro suffix
  induction suffix with
  | nil => intro i; simp [leftoverAux]
  | cons l rest ih =>
      intro i
      unfold leftoverAux
      by_cases hi : i ∈ m
      · simpa [hi] using ih (i + 1)
      · simp only [if_neg hi, List.map_cons]
        refine List.Pairwise.cons ?_ (ih (i + 1))
        intro b hb
        obtain ⟨p, hp, hpb⟩ := List.mem_map.mp hb
        have := leftoverAux_lb m rest (i + 1) p hp
        omega

theorem leftover_fst_nodup (LS : List Line) (m : List Nat) :
    ((leftover LS m).map Prod.fst).Nodup :=
  ((leftoverAux_fst_sorted m LS 0).imp (fun h => Nat.ne_of_lt h))

theorem leftover_mem (LS : List Line) (m : List Nat) :
    ∀ p ∈ leftover LS m, p.1 < LS.length ∧ p.1 ∉ m ∧ LS.get? p.1 = some p.2 :=
  leftoverAux_mem LS m LS 0 (by simp)

theorem hmapAdd_inv {LS1 : List Line} {n : Nat} {hm : HMap} {k : HKey}
    (h : HMInv LS1 n hm) (hk : frozenItems (LS1.getD n []) = k) :
    HMInv LS1 (n + 1) (hmapAdd hm k n) := by
  unfold hmapAdd
  by_cases hex : hm.any (fun e => decide (e.1 = k))
  · simp only [if_pos hex]
    refine ⟨?_, ?_, ?_, ?_⟩
    · have : (hm.map (fun e => if e.1 = k then (e.1, e.2 ++ [n]) else e)).map
          (fun e => e.1) = hm.map (fun e => e.1) := by
        rw [List.map_map]
        exact List.map_congr_left (fun e _ => by by_cases he : e.1 = k <;> simp [he])
      rw [this]; exact h.keys_nodup
    · intro e' he'
      obtain ⟨e, he, hge⟩ := List.mem_map.mp he'
      by_cases hek : e.1 = k
      · rw [← hge]; simp [hek]
      · rw [← hge]; simp only [if_neg hek]; exact h.nonempty e he
    · intro e' he'
      obtain ⟨e, he, hge⟩ := List.mem_map.mp he'
      by_cases hek : e.1 = k
      · rw [← hge]; simp only [if_pos hek]
        refine List.Nodup.append (h.bnodup e he) (List.nodup_singleton n) ?_
        intro i hi hin
        have := (h.elems e he i hi).1
        simp at hin
        omega
      · rw [← hge]; simp only [if_neg hek]; exact h.bnodup e he
    · intro e' he' i hi
      obtain ⟨e, he, hge⟩ := List.mem_map.mp he'
      by_cases hek : e.1 = k
      · rw [← hge] at hi ⊢
        simp only [if_pos hek] at hi ⊢
        rcases List.mem_append.mp hi with h1 | h1
        · have := h.elems e he i h1
          exact ⟨by omega, this.2⟩
        · simp at h1
          refine ⟨by omega, ?_⟩
          rw [hek, ← hk, h1]
      · rw [← hge] at hi ⊢
        simp only [if_neg hek] at hi ⊢
        have := h.elems e he i hi
        exact ⟨by omega, this.2⟩
  · simp only [if_neg hex]
    have hnotkey : ∀ e ∈ hm, e.1 ≠ k := by
      intro e he hc
      exact hex (List.any_eq_true.mpr ⟨e, he, by simp [hc]⟩)
    refine ⟨?_, ?_, ?_, ?_⟩
    · rw [List.map_append]
      refine List.Nodup.append h.keys_nodup (by simp) ?_
      intro x hx hx2
      simp at hx2
      obtain ⟨e, he, hge⟩ := List.mem_map.mp hx
      exact hnotkey e he (by rw [hge, hx2])
    · intro e he
      rcases List.mem_append.mp he with h1 | h1
      · exact h.nonempty e h1
      · simp at h1; rw [h1]; simp
    · intro e he
      rcases List.mem_append.mp he with h1 | h1
      · exact h.bnodup e h1
      · simp at h1; rw [h1]; simp
    · intro e he i hi
      rcases List.mem_append.mp he with h1 | h1
      · have := h.elems e h1 i hi
        exact ⟨by omega, this.2⟩
      · simp at h1
        rw [h1] at hi ⊢
        simp at hi
        refine ⟨by omega, ?_⟩
        rw [hi]
        simpa using hk

theorem buildHashMapAux_inv (LS1 : List Line) :
    ∀ (suffix : List Line) (i : Nat) (hm : HMap), suffix = LS1.drop i →
      HMInv LS1 i hm → HMInv LS1 (i + suffix.length) (buildHashMapAux i suffix hm) := by
  intro suffix
  induction suffix with
  | nil => intro i hm _ h; simpa [buildHashMapAux] using h
  | cons l rest ih =>
      intro i hm hdrop h
      obtain ⟨hget, hrest⟩ := drop_cons_split hdrop.symm
      unfold buildHashMapAux
      have hkey : frozenItems (LS1.getD i []) = frozenItems l := by
        rw [getD_of_get? hget]
      have := ih (i + 1) (hmapAdd hm (frozenItems l) i) hrest.symm (hmapAdd_inv h hkey)
      have harith : i + 1 + rest.length = i + (l :: rest).length := by simp; omega
      rwa [harith] at this

theorem buildHashMap_inv (LS1 : List Line) :
    HMInv LS1 LS1.length (buildHashMap LS1) := by
  have := buildHashMapAux_inv LS1 LS1 0 [] (by simp)
    ⟨by simp, by simp, by simp, by simp⟩
  simpa [buildHashMap] using this

theorem getLastD_mem {l : List Nat} (h : l ≠ []) (d : Nat) : l.getLastD d ∈ l := by
  induction l generalizing d with
  | nil => exact absurd rfl h
  | cons a rest ih =>
      cases rest with
      | nil => simp
      | cons b r2 =>
          rw [List.getLastD_cons]
          exact List.mem_cons_of_mem a (ih (by simp) a)

theorem getLastD_not_mem_dropLast {l : List Nat} (hn : l.Nodup) (h : l ≠ []) (d : Nat) :
    l.getLastD d ∉ l.dropLast := by
  have hsplit := List.dropLast_append_getLast h
  intro hc
  have hlast : l.getLastD d = l.getLast h := by
    rw [List.getLastD_eq_getLast?, List.getLast?_eq_getLast l h]; rfl
  rw [hlast] at hc
  have hnd := hn
  rw [← hsplit, List.nodup_append] at hnd
  exact hnd.2.2 hc (by simp)

theorem hashStep_none {st : HashLoopState} {j : Nat} {l : Line}
    (hfind : st.hmap.find? (fun e => decide (e.1 = frozenItems l)) = none) :
    hashStep st j l = st := by
  simp [hashStep, hfind]

theorem hashStep_some_empty {st : HashLoopState} {j : Nat} {l : Line} {e : HKey × List Nat}
    (hfind : st.hmap.find? (fun e => decide (e.1 = frozenItems l)) = some e)
    (he : e.2 = []) : hashStep st j l = st := by
  simp [hashStep, hfind, he]

theorem hashStep_some {st : HashLoopState} {j : Nat} {l : Line} {e : HKey × List Nat}
    (hfind : st.hmap.find? (fun e => decide (e.1 = frozenItems l)) = some e)
    (hne : e.2 ≠ []) :
    hashStep st j l =
      { hmap :=
          if e.2.length = 1 then st.hmap.filter (fun q => decide (q.1 ≠ frozenItems l))
          else st.hmap.map (fun q => if q.1 = frozenItems l then (q.1, q.2.dropLast) else q)
        ls1Matched := st.ls1Matched ++ [e.2.getLastD 0]
        ls2Matched := st.ls2Matched ++ [j]
        matched := st.matched ++ [(e.2.getLastD 0, j)] } := by
  simp [hashStep, hfind, hne]

theorem LoopInv.mono {LS1 LS2 : List Line} {j j' : Nat} {st : HashLoopState}
    (h : LoopInv LS1 LS2 j st) (hj : j ≤ j') : LoopInv LS1 LS2 j' st :=
  { h with snd_lt := fun p hp => Nat.lt_of_lt_of_le (h.snd_lt p hp) hj }

theorem hashStep_inv {LS1 LS2 : List Line} {j : Nat} {st : HashLoopState} {l : Line}
    (hl : LS2.get? j = some l) (h : LoopInv LS1 LS2 j st) :
    LoopInv LS1 LS2 (j + 1) (hashStep st j l) := by
  rcases hfind : st.hmap.find? (fun e => decide (e.1 = frozenItems l)) with _ | e
  · rw [hashStep_none hfind]
    exact h.mono (Nat.le_succ j)
  · have he : e ∈ st.hmap := List.mem_of_find?_eq_some hfind
    have hkey : e.1 = frozenItems l := by
      have := List.find?_some hfind
      simpa using this
    by_cases hne : e.2 = []
    · rw [hashStep_some_empty hfind hne]
      exact h.mono (Nat.le_succ j)
    · rw [hashStep_some hfind hne]
      set m := e.2.getLastD 0 with hm
      have hmmem : m ∈ e.2 := getLastD_mem hne 0
      have hmlt : m < LS1.length := (h.hminv.elems e he m hmmem).1
      have hmkey : frozenItems (LS1.getD m []) = e.1 := (h.hminv.elems e he m hmmem).2
      have hmfresh : m ∉ st.ls1Matched := h.fresh e he m hmmem
      have hl2 : LS2.getD j [] = l := getD_of_get? hl
      -- the new bucket structure
      have hmapinv : HMInv LS1 LS1.length
          (if e.2.length = 1 then st.hmap.filter (fun q => decide (q.1 ≠ frozenItems l))
           else st.hmap.map
             (fun q => if q.1 = frozenItems l then (q.1, q.2.dropLast) else q)) := by
        by_cases hlen : e.2.length = 1
        · simp only [if_pos hlen]
          refine ⟨?_, ?_, ?_, ?_⟩
          · exact List.Nodup.sublist (List.Sublist.map _ (List.filter_sublist _))
              h.hminv.keys_nodup
          · intro e' he'
            exact h.hminv.nonempty e' (List.mem_of_mem_filter he')
          · intro e' he'
            exact h.hminv.bnodup e' (List.mem_of_mem_filter he')
          · intro e' he' i hi
            exact h.hminv.elems e' (List.mem_of_mem_filter he') i hi
        · simp only [if_neg hlen]
          refine ⟨?_, ?_, ?_, ?_⟩
          · have : (st.hmap.map
                (fun q => if q.1 = frozenItems l then (q.1, q.2.dropLast) else q)).map
                  (fun e => e.1) = st.hmap.map (fun e => e.1) := by
              rw [List.map_map]
              exact List.map_congr_left
                (fun q _ => by by_cases hq : q.1 = frozenItems l <;> simp [hq])
            rw [this]; exact h.hminv.keys_nodup
          · intro e' he'
            obtain ⟨q, hq, hgq⟩ := List.mem_map.mp he'
            by_cases hqk : q.1 = frozenItems l
            · rw [← hgq]; simp only [if_pos hqk]
              have hq2 : q = e := eq_of_nodup_keys h.hminv.keys_nodup hq he
                (by rw [hqk, hkey])
              subst hq2
              intro hempty
              have : q.2.length - 1 = 0 := by rw [← List.length_dropLast, hempty]; rfl
              have : q.2.length ≠ 1 := hlen
              have hq2ne : q.2 ≠ [] := hne
              have : 0 < q.2.length := List.length_pos.mpr hq2ne
              omega
            · rw [← hgq]; simp only [if_neg hqk]
              exact h.hminv.nonempty q hq
          · intro e' he'
            obtain ⟨q, hq, hgq⟩ := List.mem_map.mp he'
            by_cases hqk : q.1 = frozenItems l
            · rw [← hgq]; simp only [if_pos hqk]
              exact List.Nodup.sublist (List.dropLast_sublist q.2) (h.hminv.bnodup q hq)
            · rw [← hgq]; simp only [if_neg hqk]
              exact h.hminv.bnodup q hq
          · intro e' he' i hi
            obtain ⟨q, hq, hgq⟩ := List.mem_map.mp he'
            by_cases hqk : q.1 = frozenItems l
            · rw [← hgq] at hi ⊢
              simp only [if_pos hqk] at hi ⊢
              exact h.hminv.elems q hq i ((List.dropLast_sublist q.2).subset hi)
            · rw [← hgq] at hi ⊢
              simp only [if_neg hqk] at hi ⊢
              exact h.hminv.elems q hq i hi
      refine ⟨hmapinv, ?_, ?_, ?_, ?_, ?_, ?_, ?_, ?_⟩
      · simp [h.ls1m]
      · simp [h.ls2m]
      · rw [List.map_append]
        refine List.Nodup.append h.fst_nodup (by simp) ?_
        intro x hx hx2
        simp at hx2
        rw [← h.ls1m] at hx
        rw [hx2] at hx
        exact hmfresh hx
      · rw [List.map_append]
        refine List.Nodup.append h.snd_nodup (by simp) ?_
        intro x hx hx2
        simp at hx2
        obtain ⟨p, hp, hps⟩ := List.mem_map.mp hx
        have := h.snd_lt p hp
        omega
      · intro p hp
        rcases List.mem_append.mp hp with h1 | h1
        · exact h.fst_lt p h1
        · simp at h1; rw [h1]; exact hmlt
      · intro p hp
        rcases List.mem_append.mp hp with h1 | h1
        · exact Nat.lt_succ_of_lt (h.snd_lt p h1)
        · simp at h1; rw [h1]; exact Nat.lt_succ_self j
      · intro p hp
        rcases List.mem_append.mp hp with h1 | h1
        · exact h.keys_eq p h1
        · simp at h1; rw [h1]
          simp only
          rw [hl2, hmkey, hkey]
      · intro e' he' i hi
        intro hc
        rcases List.mem_append.mp hc with hc1 | hc1
        · -- i was already matched before this step: contradicts the old fresh property
          by_cases hlen : e.2.length = 1
          · rw [if_pos hlen] at he'
            exact h.fresh e' (List.mem_of_mem_filter he') i hi hc1
          · rw [if_neg hlen] at he'
            obtain ⟨q, hq, hgq⟩ := List.mem_map.mp he'
            by_cases hqk : q.1 = frozenItems l
            · rw [← hgq] at hi
              simp only [if_pos hqk] at hi
              exact h.fresh q hq i ((List.dropLast_sublist q.2).subset hi) hc1
            · rw [← hgq] at hi
              simp only [if_neg hqk] at hi
              exact h.fresh q hq i hi hc1
        · -- i = m: but m was popped from its bucket
          simp at hc1
          subst hc1
          by_cases hlen : e.2.length = 1
          · rw [if_pos hlen] at he'
            have hkeyne : e'.1 ≠ frozenItems l := by
              have := List.of_mem_filter he'
              simpa using this
            have hfr : frozenItems (LS1.getD m []) = e'.1 :=
              (h.hminv.elems e' (List.mem_of_mem_filter he') m hi).2
            rw [← hkey] at hkeyne
            rw [hmkey] at hfr
            exact hkeyne hfr.symm
          · rw [if_neg hlen] at he'
            obtain ⟨q, hq, hgq⟩ := List.mem_map.mp he'
            by_cases hqk : q.1 = frozenItems l
            · have hq2 : q = e := eq_of_nodup_keys h.hminv.keys_nodup hq he
                (by rw [hqk, hkey])
              rw [← hgq] at hi
              simp only [if_pos hqk] at hi
              rw [hq2] at hi
              exact getLastD_not_mem_dropLast (h.hminv.bnodup e he) hne 0 hi
            · rw [← hgq] at hi
              simp only [if_neg hqk] at hi
              have hfr : frozenItems (LS1.getD m []) = q.1 := (h.hminv.elems q hq m hi).2
              rw [hmkey, hkey] at hfr
              exact hqk hfr.symm

theorem hashLoopAux_inv (LS1 LS2 : List Line) :
    ∀ (suffix : List Line) (j : Nat) (st : HashLoopState), suffix = LS2.drop j →
      LoopInv LS1 LS2 j st →
      LoopInv LS1 LS2 (j + suffix.length) (hashLoopAux j suffix st) := by
  intro suffix
  induction suffix with
  | nil => intro j st _ h; simpa [hashLoopAux] using h
  | cons l rest ih =>
      intro j st hdrop h
      obtain ⟨hget, hrest⟩ := drop_cons_split hdrop.symm
      unfold hashLoopAux
      have := ih (j + 1) (hashStep st j l) hrest.symm (hashStep_inv hget h)
      have harith : j + 1 + rest.length = j + (l :: rest).length := by simp; omega
      rwa [harith] at this

theorem hashLoop_inv (LS1 LS2 : List Line) :
    LoopInv LS1 LS2 LS2.length (hashLoop LS1 LS2) := by
  have := hashLoopAux_inv LS1 LS2 LS2 0 ⟨buildHashMap LS1, [], [], []⟩ (by simp)
    ⟨buildHashMap_inv LS1, rfl, rfl, by simp, by simp, by simp, by simp, by simp,
      fun e _ i _ => by simp⟩
  simpa [hashLoop] using this

end PrefixList

theorem getD_mem_of_lt {α : Type} {l : List α} {x : Nat} {d : α} (h : x < l.length) :
    l.getD x d ∈ l := by
  rw [List.getD_eq_getElem l d h]
  exact List.getElem_mem h

theorem getD_inj {α : Type} {l : List α} {d : α} (hl : l.Nodup) {x y : Nat}
    (hx : x < l.length) (hy : y < l.length) (h : l.getD x d = l.getD y d) : x = y := by
  rw [List.getD_eq_getElem l d hx, List.getD_eq_getElem l d hy] at h
  have hget : l.get ⟨x, hx⟩ = l.get ⟨y, hy⟩ := by
    simpa [List.get_eq_getElem] using h
  exact Fin.mk_eq_mk.mp (List.nodup_iff_injective_get.mp hl hget)

/-- C10: the pair list returned by the bipartite matcher is a partial
injective matching over in-range indices, and every hash-shortcut pair
joins two lines whose attribute maps agree everywhere except possibly at
the line-number key -1.  Quantified over any valid solver output. -/
theorem C10_matcher_partial_injective (LS1 LS2 : List Line) (pvm : ParamValueMap)
    (noOfAttributes : Nat) (solver : List (List Int) → List (Nat × Nat))
    (hk1 : ∀ l ∈ LS1, (l.map Prod.fst).Nodup)
    (hk2 : ∀ l ∈ LS2, (l.map Prod.fst).Nodup)
    (hva : ValidAssignment (PrefixList.bmLeft1 LS1 LS2).length
      (PrefixList.bmLeft2 LS1 LS2).length
      (PrefixList.bmIndices LS1 LS2 pvm noOfAttributes solver)) :
    (((PrefixList.BipartiteMatching LS1 LS2 pvm noOfAttributes solver).2.map
        Prod.fst).Nodup ∧
      ((PrefixList.BipartiteMatching LS1 LS2 pvm noOfAttributes solver).2.map
        Prod.snd).Nodup ∧
      ∀ p ∈ (PrefixList.BipartiteMatching LS1 LS2 pvm noOfAttributes solver).2,
        p.1 < LS1.length ∧ p.2 < LS2.length) ∧
    ∀ p ∈ (PrefixList.hashLoop LS1 LS2).matched, ∀ k : Int, k ≠ -1 →
      (LS1.getD p.1 []).get k = (LS2.getD p.2 []).get k := by
  have hinv := PrefixList.hashLoop_inv LS1 LS2
  have hr : (PrefixList.BipartiteMatching LS1 LS2 pvm noOfAttributes solver).2 =
      (PrefixList.hashLoop LS1 LS2).matched ++
        ((PrefixList.bmIndices LS1 LS2 pvm noOfAttributes solver).filter
          (fun p => decide (PrefixList.matAt
            (PrefixList.bmMatrix LS1 LS2 pvm noOfAttributes) p.1 p.2 ≠ INFINITY))).map
          (fun p => (((PrefixList.bmLeft1 LS1 LS2).map (fun q => q.1)).getD p.1 0,
            ((PrefixList.bmLeft2 LS1 LS2).map (fun q => q.1)).getD p.2 0)) := by
    show (PrefixList.assignFold _ _ _ _ _
      (0, (PrefixList.hashLoop LS1 LS2).matched)).2 = _
    rw [PrefixList.assignFold_matched]
  set HL := PrefixList.hashLoop LS1 LS2 with hHL
  set L1 := PrefixList.bmLeft1 LS1 LS2 with hL1
  set L2 := PrefixList.bmLeft2 LS1 LS2 with hL2
  set kept := (PrefixList.bmIndices LS1 LS2 pvm noOfAttributes solver).filter
    (fun p => decide (PrefixList.matAt
      (PrefixList.bmMatrix LS1 LS2 pvm noOfAttributes) p.1 p.2 ≠ INFINITY)) with hkept
  have hkept_sub : ∀ p ∈ kept, p ∈ PrefixList.bmIndices LS1 LS2 pvm noOfAttributes solver :=
    fun p hp => List.mem_of_mem_filter hp
  have hkfst : (kept.map Prod.fst).Nodup :=
    List.Nodup.sublist (List.Sublist.map Prod.fst (List.filter_sublist _)) hva.2.1
  have hksnd : (kept.map Prod.snd).Nodup :=
    List.Nodup.sublist (List.Sublist.map Prod.snd (List.filter_sublist _)) hva.2.2.1
  have hkb : ∀ p ∈ kept, p.1 < L1.length ∧ p.2 < L2.length :=
    fun p hp => hva.1 p (hkept_sub p hp)
  -- facts about the leftover position lists
  have hm1nd : ((L1.map (fun q => q.1)).Nodup) := PrefixList.leftover_fst_nodup LS1 _
  have hm2nd : ((L2.map (fun q => q.1)).Nodup) := PrefixList.leftover_fst_nodup LS2 _
  have hm1mem : ∀ v ∈ L1.map (fun q => q.1),
      v < LS1.length ∧ v ∉ HL.ls1Matched := by
    intro v hv
    obtain ⟨q, hq, hvq⟩ := List.mem_map.mp hv
    have := PrefixList.leftover_mem LS1 HL.ls1Matched q hq
    exact ⟨hvq ▸ this.1, hvq ▸ this.2.1⟩
  have hm2mem : ∀ v ∈ L2.map (fun q => q.1),
      v < LS2.length ∧ v ∉ HL.ls2Matched := by
    intro v hv
    obtain ⟨q, hq, hvq⟩ := List.mem_map.mp hv
    have := PrefixList.leftover_mem LS2 HL.ls2Matched q hq
    exact ⟨hvq ▸ this.1, hvq ▸ this.2.1⟩
  have hlen1 : (L1.map (fun q => q.1)).length = L1.length := by simp
  have hlen2 : (L2.map (fun q => q.1)).length = L2.length := by simp
  -- every row value contributed by the assignment stage is a leftover row
  have hmap_fst_mem : ∀ x, x ∈ (kept.map (fun p =>
      (((L1.map (fun q => q.1)).getD p.1 0, ((L2.map (fun q => q.1)).getD p.2 0))))).map
        Prod.fst → x ∈ L1.map (fun q => q.1) := by
    intro x hx
    rw [List.map_map] at hx
    obtain ⟨p, hp, hpx⟩ := List.mem_map.mp hx
    have hb1 : p.1 < (L1.map (fun q => q.1)).length := by
      rw [hlen1]; exact (hkb p hp).1
    rw [← hpx]
    exact getD_mem_of_lt hb1
  have hmap_snd_mem : ∀ x, x ∈ (kept.map (fun p =>
      (((L1.map (fun q => q.1)).getD p.1 0, ((L2.map (fun q => q.1)).getD p.2 0))))).map
        Prod.snd → x ∈ L2.map (fun q => q.1) := by
    intro x hx
    rw [List.map_map] at hx
    obtain ⟨p, hp, hpx⟩ := List.mem_map.mp hx
    have hb2 : p.2 < (L2.map (fun q => q.1)).length := by
      rw [hlen2]; exact (hkb p hp).2
    rw [← hpx]
    exact getD_mem_of_lt hb2
  have hkeptnd : kept.Nodup := List.Nodup.of_map Prod.fst hkfst
  constructor
  · refine ⟨?_, ?_, ?_⟩
    · rw [hr, List.map_append]
      refine List.Nodup.append hinv.fst_nodup ?_ ?_
      · rw [List.map_map]
        refine List.Nodup.map_on ?_ hkeptnd
        intro p hp p' hp' hpp
        simp only [Function.comp] at hpp
        have h1 : p.1 = p'.1 := by
          refine getD_inj hm1nd ?_ ?_ hpp
          · rw [hlen1]; exact (hkb p hp).1
          · rw [hlen1]; exact (hkb p' hp').1
        exact eq_of_nodup_keys hkfst hp hp' h1
      · intro x hx hx2
        have hxm1 := hmap_fst_mem x hx2
        have := (hm1mem x hxm1).2
        rw [hinv.ls1m] at this
        exact this hx
    · rw [hr, List.map_append]
      refine List.Nodup.append hinv.snd_nodup ?_ ?_
      · rw [List.map_map]
        refine List.Nodup.map_on ?_ hkeptnd
        intro p hp p' hp' hpp
        simp only [Function.comp] at hpp
        have h2 : p.2 = p'.2 := by
          refine getD_inj hm2nd ?_ ?_ hpp
          · rw [hlen2]; exact (hkb p hp).2
          · rw [hlen2]; exact (hkb p' hp').2
        have hsw : ((p.2, p.1) : Nat × Nat) = (p'.2, p'.1) := by
          refine eq_of_nodup_keys (l := kept.map (fun q => (q.2, q.1))) ?_ ?_ ?_ h2
          · have : (kept.map (fun q => (q.2, q.1))).map Prod.fst = kept.map Prod.snd := by
              rw [List.map_map]; exact List.map_congr_left (fun q _ => rfl)
            rw [this]; exact hksnd
          · exact List.mem_map_of_mem _ hp
          · exact List.mem_map_of_mem _ hp'
        have : p = p' := by
          have e1 : p.1 = p'.1 := congrArg Prod.snd hsw
          have e2 : p.2 = p'.2 := congrArg Prod.fst hsw
          cases p; cases p'; simp_all
        exact this
      · intro x hx hx2
        have hxm2 := hmap_snd_mem x hx2
        have := (hm2mem x hxm2).2
        rw [hinv.ls2m] at this
        exact this hx
    · intro p hp
      rw [hr] at hp
      rcases List.mem_append.mp hp with h1 | h1
      · exact ⟨hinv.fst_lt p h1, hinv.snd_lt p h1⟩
      · constructor
        · have : p.1 ∈ (kept.map (fun p => (((L1.map (fun q => q.1)).getD p.1 0,
              ((L2.map (fun q => q.1)).getD p.2 0))))).map Prod.fst :=
            List.mem_map_of_mem Prod.fst h1
          exact (hm1mem p.1 (hmap_fst_mem p.1 this)).1
        · have : p.2 ∈ (kept.map (fun p => (((L1.map (fun q => q.1)).getD p.1 0,
              ((L2.map (fun q => q.1)).getD p.2 0))))).map Prod.snd :=
            List.mem_map_of_mem Prod.snd h1
          exact (hm2mem p.2 (hmap_snd_mem p.2 this)).1
  · intro p hp k hk
    have hfz := hinv.keys_eq p hp
    have hl1 : LS1.getD p.1 [] ∈ LS1 := getD_mem_of_lt (hinv.fst_lt p hp)
    have hl2 : LS2.getD p.2 [] ∈ LS2 := getD_mem_of_lt (hinv.snd_lt p hp)
    exact get_eq_of_frozenItems_eq (hk1 _ hl1) (hk2 _ hl2) hfz k hk

/-- C10 witness: the matcher invariants at a concrete pair of
single-line sequences with a valid concrete solver output. -/
theorem C10_matcher_partial_injective_witness :
    (((PrefixList.BipartiteMatching [plFamily0Line] [plFamily1Line] [] 11 diagSolver).2.map
        Prod.fst).Nodup ∧
      ((PrefixList.BipartiteMatching [plFamily0Line] [plFamily1Line] [] 11 diagSolver).2.map
        Prod.snd).Nodup ∧
      ∀ p ∈ (PrefixList.BipartiteMatching [plFamily0Line] [plFamily1Line] [] 11 diagSolver).2,
        p.1 < 1 ∧ p.2 < 1) ∧
    ∀ p ∈ (PrefixList.hashLoop [plFamily0Line] [plFamily1Line]).matched, ∀ k : Int, k ≠ -1 →
      (([plFamily0Line] : List Line).getD p.1 []).get k =
      (([plFamily1Line] : List Line).getD p.2 []).get k :=
  C10_matcher_partial_injective [plFamily0Line] [plFamily1Line] [] 11 diagSolver
    (by decide) (by decide) (by unfold ValidAssignment; decide)

theorem Line.get_set_self (l : Line) (k : Int) (v : PyVal) :
    (l.set k v).get k = some v := by
  induction l with
  | nil => simp [Line.set, Line.get]
  | cons p rest ih =>
      by_cases hp : p.1 = k
      · simp [Line.set, Line.get, hp]
      · simp only [Line.set, if_neg hp]
        show (Line.get (p :: Line.set rest k v) k) = some v
        unfold Line.get
        rw [List.find?_cons]
        have hb : (p.1 == k) = false := by simpa using hp
        simp only [hb]
        exact ih

theorem Line.get_set_ne (l : Line) {k k' : Int} (v : PyVal) (hne : k' ≠ k) :
    (l.set k v).get k' = l.get k' := by
  induction l with
  | nil =>
      show Line.get [(k, v)] k' = Line.get [] k'
      unfold Line.get
      rw [List.find?_cons]
      have hb : ((k, v).1 == k') = false := by
        simp
        exact fun hc => hne hc.symm
      simp [hb]
  | cons p rest ih =>
      by_cases hp : p.1 = k
      · simp only [Line.set, if_pos hp]
        show Line.get ((k, v) :: rest) k' = Line.get (p :: rest) k'
        unfold Line.get
        rw [List.find?_cons, List.find?_cons]
        have h1 : ((k, v).1 == k') = false := by
          simp
          exact fun hc => hne hc.symm
        have h2 : (p.1 == k') = false := by
          simp [hp]
          exact fun hc => hne hc.symm
        simp only [h1, h2]
      · simp only [Line.set, if_neg hp]
        show Line.get (p :: Line.set rest k v) k' = Line.get (p :: rest) k'
        unfold Line.get
        rw [List.find?_cons, List.find?_cons]
        by_cases hp2 : p.1 = k'
        · have hb : (p.1 == k') = true := by simpa using hp2
          simp only [hb]
        · have hb : (p.1 == k') = false := by simpa using hp2
          simp only [hb]
          exact ih

theorem Line.idNum_set (l : Line) (n : Int) :
    (l.set (-1) (.int n)).idNum = n := by
  unfold Line.idNum
  rw [Line.get_set_self]

theorem hasKey_append {κ α : Type} [DecidableEq κ] (a b : List (κ × α)) (k : κ) :
    hasKey (a ++ b) k = (hasKey a k || hasKey b k) := by
  simp [hasKey, List.any_append]

theorem setAssoc_fresh {κ α : Type} [DecidableEq κ] {m : List (κ × α)} {k : κ}
    (h : hasKey m k = false) (v : α) : setAssoc m k v = m ++ [(k, v)] := by
  induction m with
  | nil => simp [setAssoc]
  | cons e rest ih =>
      rw [hasKey, List.any_cons] at h
      rcases Bool.or_eq_false_iff.mp h with ⟨h1, h2⟩
      have he : ¬(e.1 = k) := by simpa using h1
      simp only [setAssoc, if_neg he]
      rw [ih (by rw [hasKey]; exact h2)]
      simp

theorem getAssoc_append {κ α : Type} [DecidableEq κ] (a b : List (κ × α)) (k : κ) :
    getAssoc (a ++ b) k =
      match getAssoc a k with
      | some v => some v
      | none => getAssoc b k := by
  unfold getAssoc
  rw [List.find?_append]
  rcases h : List.find? (fun e => decide (e.1 = k)) a with _ | q <;> simp [h]

theorem getAssoc_not_has {κ α : Type} [DecidableEq κ] {m : List (κ × α)} {k : κ}
    (h : hasKey m k = false) : getAssoc m k = none := by
  induction m with
  | nil => rfl
  | cons e rest ih =>
      rw [hasKey, List.any_cons] at h
      rcases Bool.or_eq_false_iff.mp h with ⟨h1, h2⟩
      show Option.map _ (List.find? (fun e => decide (e.1 = k)) (e :: rest)) = none
      rw [List.find?_cons]
      simp only [h1]
      exact ih (by rw [hasKey]; exact h2)

theorem getAssoc_setAssoc_self {κ α : Type} [DecidableEq κ] (m : List (κ × α))
    (k : κ) (v : α) : getAssoc (setAssoc m k v) k = some v := by
  induction m with
  | nil => simp [setAssoc, getAssoc]
  | cons e rest ih =>
      by_cases he : e.1 = k
      · simp [setAssoc, getAssoc, he]
      · simp only [setAssoc, if_neg he]
        simp only [getAssoc, List.find?_cons]
        have : (decide (e.1 = k)) = false := by simp [he]
        simp only [this]
        exact ih

theorem getAssoc_setAssoc_ne {κ α : Type} [DecidableEq κ] (m : List (κ × α))
    {k k' : κ} (v : α) (hne : k' ≠ k) :
    getAssoc (setAssoc m k v) k' = getAssoc m k' := by
  induction m with
  | nil =>
      have h1 : (decide (k = k')) = false := by
        simp
        exact fun hc => hne hc.symm
      simp [setAssoc, getAssoc, List.find?_cons, h1]
  | cons e rest ih =>
      by_cases he : e.1 = k
      · simp only [setAssoc, if_pos he]
        simp only [getAssoc, List.find?_cons]
        have h1 : (decide (k = k')) = false := by
          simp
          exact fun hc => hne hc.symm
        have h2 : (decide (e.1 = k')) = false := by
          simp [he]
          exact fun hc => hne hc.symm
        simp [h1, h2]
      · simp only [setAssoc, if_neg he]
        simp only [getAssoc, List.find?_cons]
        by_cases he2 : e.1 = k'
        · simp [he2]
        · have : (decide (e.1 = k')) = false := by simp [he2]
          simp only [this]
          exact ih

theorem mapWithCtr_length {α β : Type} (f : Int → α → β) :
    ∀ (l : List α) (n : Int), (mapWithCtr f n l).length = l.length := by
  intro l
  induction l with
  | nil => intro n; rfl
  | cons x rest ih => intro n; simp [mapWithCtr, ih]

namespace PrefixList

theorem mergeAttrStep_get_ne (pvm : ParamValueMap) (device : String)
    (tLine dLine : Line) {k k' : Int} (hk : k' ≠ k) (st : Line × ParametersLinesMap) :
    (mergeAttrStep pvm device tLine dLine k st).1.get k' = st.1.get k' := by
  unfold mergeAttrStep
  by_cases h1 : truthy (tLine.get k) && truthy (dLine.get k)
  · simp only [h1, if_true]
    by_cases h2 : tLine.get k ≠ dLine.get k
    · simp only [if_pos h2]
      by_cases h3 : pvmLookup pvm (tLine.get k) = none
      · simp only [if_pos h3]
        exact Line.get_set_ne st.1 _ hk
      · simp only [if_neg h3]
    · simp only [if_neg h2]
  · simp only [h1, Bool.false_eq_true, if_false]
    by_cases h2 : truthy (dLine.get k)
    · simp only [if_pos h2]
      exact Line.get_set_ne st.1 _ hk
    · simp only [if_neg h2]

theorem mergeMatchedLine_get_neg (pvm : ParamValueMap) (device : String)
    (noOfAttributes : Nat) (tLine dLine : Line) (pl : ParametersLinesMap) :
    (mergeMatchedLine pvm device noOfAttributes tLine dLine pl).1.get (-1) =
      tLine.get (-1) := by
  unfold mergeMatchedLine
  have hgen : ∀ (ks : List Nat) (st : Line × ParametersLinesMap),
      (ks.foldl (fun st k => mergeAttrStep pvm device tLine dLine (Int.ofNat k) st)
        st).1.get (-1) = st.1.get (-1) := by
    intro ks
    induction ks with
    | nil => intro st; rfl
    | cons k rest ih =>
        intro st
        rw [List.foldl_cons, ih]
        refine mergeAttrStep_get_ne pvm device tLine dLine ?_ st
        intro hc
        rw [Int.ofNat_eq_natCast] at hc
        omega
  exact hgen (List.range noOfAttributes) (tLine, pl)

theorem mergeMatchedLine_idNum (pvm : ParamValueMap) (device : String)
    (noOfAttributes : Nat) (tLine dLine : Line) (pl : ParametersLinesMap) :
    (mergeMatchedLine pvm device noOfAttributes tLine dLine pl).1.idNum =
      tLine.idNum := by
  unfold Line.idNum
  rw [mergeMatchedLine_get_neg]

theorem pass1_foldl (templateLines : List Line) :
    ∀ (idxs : List Nat) (s : MergeRes),
      (idxs.foldl (pass1Step templateLines) s).combined =
          s.combined ++ mapWithCtr
            (fun n i => (templateLines.getD i []).set (-1) (.int n)) s.lineNum idxs ∧
      (idxs.foldl (pass1Step templateLines) s).lineNum = s.lineNum + idxs.length ∧
      (idxs.foldl (pass1Step templateLines) s).pl = s.pl ∧
      (idxs.foldl (pass1Step templateLines) s).newDeviceLines = s.newDeviceLines := by
  intro idxs
  induction idxs with
  | nil => intro s; simp [mapWithCtr]
  | cons i rest ih =>
      intro s
      rw [List.foldl_cons]
      obtain ⟨h1, h2, h3, h4⟩ := ih (pass1Step templateLines s i)
      have hc1 : (pass1Step templateLines s i).combined =
          s.combined ++ [(templateLines.getD i []).set (-1) (.int s.lineNum)] := rfl
      have hc2 : (pass1Step templateLines s i).lineNum = s.lineNum + 1 := rfl
      have hc3 : (pass1Step templateLines s i).pl = s.pl := rfl
      have hc4 : (pass1Step templateLines s i).newDeviceLines = s.newDeviceLines := rfl
      refine ⟨?_, ?_, ?_, ?_⟩
      · rw [h1, hc1, hc2]
        simp [mapWithCtr]
      · rw [h2, hc2]
        simp only [List.length_cons]
        push_cast
        ring
      · rw [h3, hc3]
      · rw [h4, hc4]

theorem pass1_foldl_oldtoNew (templateLines : List Line) :
    ∀ (idxs : List Nat) (s : MergeRes),
      (idxs.map (fun i => (templateLines.getD i []).idNum)).Nodup →
      (∀ i ∈ idxs, hasKey s.oldtoNew (templateLines.getD i []).idNum = false) →
      (idxs.foldl (pass1Step templateLines) s).oldtoNew =
        s.oldtoNew ++ mapWithCtr
          (fun n i => ((templateLines.getD i []).idNum, n)) s.lineNum idxs := by
  intro idxs
  induction idxs with
  | nil => intro s _ _; simp [mapWithCtr]
  | cons i rest ih =>
      intro s hnd hfr
      rw [List.foldl_cons]
      rw [List.map_cons, List.nodup_cons] at hnd
      have hstep : (pass1Step templateLines s i).oldtoNew =
          s.oldtoNew ++ [((templateLines.getD i []).idNum, s.lineNum)] := by
        simp only [pass1Step]
        exact setAssoc_fresh (hfr i (by simp)) _
      have hfr2 : ∀ i2 ∈ rest,
          hasKey (pass1Step templateLines s i).oldtoNew
            (templateLines.getD i2 []).idNum = false := by
        intro i2 hi2
        rw [hstep, hasKey_append]
        have ha : hasKey s.oldtoNew (templateLines.getD i2 []).idNum = false :=
          hfr i2 (by simp [hi2])
        have hane : (templateLines.getD i []).idNum ≠
            (templateLines.getD i2 []).idNum := by
          intro hc
          apply hnd.1
          rw [hc]
          exact List.mem_map_of_mem _ hi2
        have hb : hasKey [((templateLines.getD i []).idNum, s.lineNum)]
            (templateLines.getD i2 []).idNum = false := by
          rw [hasKey]
          simp only [List.any_cons, List.any_nil, Bool.or_false]
          exact decide_eq_false hane
        rw [ha, hb]
        rfl
      rw [ih (pass1Step templateLines s i) hnd.2 hfr2, hstep]
      have hln : (pass1Step templateLines s i).lineNum = s.lineNum + 1 := rfl
      rw [hln]
      simp [mapWithCtr]

theorem pass2_foldl (deviceLines : List Line) :
    ∀ (idxs : List Nat) (s : MergeRes),
      (idxs.foldl (pass2Step deviceLines) s).combined =
          s.combined ++ mapWithCtr
            (fun n i => (deviceLines.getD i []).set (-1) (.int n)) s.lineNum idxs ∧
      (idxs.foldl (pass2Step deviceLines) s).lineNum = s.lineNum + idxs.length ∧
      (idxs.foldl (pass2Step deviceLines) s).pl = s.pl ∧
      (idxs.foldl (pass2Step deviceLines) s).oldtoNew = s.oldtoNew ∧
      (idxs.foldl (pass2Step deviceLines) s).newDeviceLines =
        s.newDeviceLines ++ mapWithCtr (fun n _ => n) s.lineNum idxs := by
  intro idxs
  induction idxs with
  | nil => intro s; simp [mapWithCtr]
  | cons i rest ih =>
      intro s
      rw [List.foldl_cons]
      obtain ⟨h1, h2, h3, h4, h5⟩ := ih (pass2Step deviceLines s i)
      have hc1 : (pass2Step deviceLines s i).combined =
          s.combined ++ [(deviceLines.getD i []).set (-1) (.int s.lineNum)] := rfl
      have hc2 : (pass2Step deviceLines s i).lineNum = s.lineNum + 1 := rfl
      have hc3 : (pass2Step deviceLines s i).pl = s.pl := rfl
      have hc4 : (pass2Step deviceLines s i).oldtoNew = s.oldtoNew := rfl
      have hc5 : (pass2Step deviceLines s i).newDeviceLines =
          s.newDeviceLines ++ [s.lineNum] := rfl
      refine ⟨?_, ?_, ?_, ?_, ?_⟩
      · rw [h1, hc1, hc2]
        simp [mapWithCtr]
      · rw [h2, hc2]
        simp only [List.length_cons]
        push_cast
        ring
      · rw [h3, hc3]
      · rw [h4, hc4]
      · rw [h5, hc5, hc2]
        simp [mapWithCtr]

theorem pass3_foldl (pvm : ParamValueMap) (device : String) (noOfAttributes : Nat)
    (templateLines deviceLines : List Line) :
    ∀ (prs : List (Nat × Nat)) (s : MergeRes),
      ∃ lines3 : List Line,
        (prs.foldl (pass3Step pvm device noOfAttributes templateLines deviceLines)
          s).combined = s.combined ++ lines3 ∧
        lines3.length = prs.length ∧
        (∀ q : Nat, q < lines3.length →
          (lines3.getD q []).idNum = s.lineNum + q) ∧
        (prs.foldl (pass3Step pvm device noOfAttributes templateLines deviceLines)
          s).lineNum = s.lineNum + prs.length ∧
        (prs.foldl (pass3Step pvm device noOfAttributes templateLines deviceLines)
          s).newDeviceLines =
          s.newDeviceLines ++ mapWithCtr (fun n _ => n) s.lineNum prs := by
  intro prs
  induction prs with
  | nil =>
      intro s
      exact ⟨[], by simp, rfl, by intro q hq; simp at hq, by simp, by simp [mapWithCtr]⟩
  | cons p rest ih =>
      intro s
      rw [List.foldl_cons]
      obtain ⟨lines3, h1, h2, h3, h4, h5⟩ :=
        ih (pass3Step pvm device noOfAttributes templateLines deviceLines s p)
      set line0 := (mergeMatchedLine pvm device noOfAttributes
        (templateLines.getD p.1 []) (deviceLines.getD p.2 []) s.pl).1.set (-1)
          (.int s.lineNum) with hline0
      refine ⟨line0 :: lines3, ?_, by simp [h2], ?_, ?_, ?_⟩
      · rw [h1]
        simp [pass3Step, hline0]
      · intro q hq
        cases q with
        | zero =>
            simp only [List.getD_cons_zero]
            rw [hline0, Line.idNum_set]
            simp
        | succ q2 =>
            simp only [List.getD_cons_succ]
            have hq2 : q2 < lines3.length := by simpa using hq
            rw [h3 q2 hq2]
            have : (pass3Step pvm device noOfAttributes templateLines deviceLines
              s p).lineNum = s.lineNum + 1 := rfl
            rw [this]
            push_cast
            ring
      · rw [h4]
        have : (pass3Step pvm device noOfAttributes templateLines deviceLines
          s p).lineNum = s.lineNum + 1 := rfl
        rw [this]
        simp
        omega
      · rw [h5]
        have : (pass3Step pvm device noOfAttributes templateLines deviceLines
          s p).lineNum = s.lineNum + 1 := rfl
        simp [pass3Step, mapWithCtr]

theorem pass3_foldl_oldtoNew (pvm : ParamValueMap) (device : String)
    (noOfAttributes : Nat) (templateLines deviceLines : List Line) :
    ∀ (prs : List (Nat × Nat)) (s : MergeRes),
      (prs.map (fun p => (templateLines.getD p.1 []).idNum)).Nodup →
      (∀ p ∈ prs, hasKey s.oldtoNew (templateLines.getD p.1 []).idNum = false) →
      (prs.foldl (pass3Step pvm device noOfAttributes templateLines deviceLines)
        s).oldtoNew =
        s.oldtoNew ++ mapWithCtr
          (fun n p => ((templateLines.getD p.1 []).idNum, n)) s.lineNum prs := by
  intro prs
  induction prs with
  | nil => intro s _ _; simp [mapWithCtr]
  | cons p rest ih =>
      intro s hnd hfr
      rw [List.foldl_cons]
      rw [List.map_cons, List.nodup_cons] at hnd
      have hstep : (pass3Step pvm device noOfAttributes templateLines deviceLines
          s p).oldtoNew =
          s.oldtoNew ++ [((templateLines.getD p.1 []).idNum, s.lineNum)] := by
        simp only [pass3Step]
        rw [mergeMatchedLine_idNum]
        exact setAssoc_fresh (hfr p (by simp)) _
      have hfr2 : ∀ p2 ∈ rest,
          hasKey (pass3Step pvm device noOfAttributes templateLines deviceLines
            s p).oldtoNew (templateLines.getD p2.1 []).idNum = false := by
        intro p2 hp2
        rw [hstep, hasKey_append]
        have ha : hasKey s.oldtoNew (templateLines.getD p2.1 []).idNum = false :=
          hfr p2 (by simp [hp2])
        have hane : (templateLines.getD p.1 []).idNum ≠
            (templateLines.getD p2.1 []).idNum := by
          intro hc
          apply hnd.1
          rw [hc]
          exact List.mem_map_of_mem _ hp2
        have hb : hasKey [((templateLines.getD p.1 []).idNum, s.lineNum)]
            (templateLines.getD p2.1 []).idNum = false := by
          rw [hasKey]
          simp only [List.any_cons, List.any_nil, Bool.or_false]
          exact decide_eq_false hane
        rw [ha, hb]
        rfl
      rw [ih (pass3Step pvm device noOfAttributes templateLines deviceLines s p)
        hnd.2 hfr2, hstep]
      have hln : (pass3Step pvm device noOfAttributes templateLines deviceLines
        s p).lineNum = s.lineNum + 1 := rfl
      rw [hln]
      simp [mapWithCtr]

theorem leftoutOf_nodup (n : Nat) (used : List Nat) : (leftoutOf n used).Nodup :=
  List.Nodup.sublist (List.filter_sublist _) (List.nodup_range n)

theorem leftoutOf_mem (n : Nat) (used : List Nat) :
    ∀ i ∈ leftoutOf n used, i < n ∧ i ∉ used := by
  intro i hi
  unfold leftoutOf at hi
  have h1 := List.mem_of_mem_filter hi
  have h2 := List.of_mem_filter hi
  exact ⟨List.mem_range.mp h1, by simpa using h2⟩

end PrefixList

theorem getD_map_fun {α β : Type} (f : α → β) (l : List α) (i : Nat) (dα : α) (dβ : β)
    (h : i < l.length) : (l.map f).getD i dβ = f (l.getD i dα) := by
  have hlen : i < (l.map f).length := by simpa using h
  rw [List.getD_eq_getElem (l.map f) dβ hlen, List.getD_eq_getElem l dα h]
  simp

theorem hasKey_mapWithCtr {α : Type} (f : α → Int) (k : Int) :
    ∀ (l : List α) (c : Int),
      hasKey (mapWithCtr (fun n x => (f x, n)) c l) k = l.any (fun x => decide (f x = k)) := by
  intro l
  induction l with
  | nil => intro c; rfl
  | cons x rest ih =>
      intro c
      show hasKey ((f x, c) :: mapWithCtr (fun n x => (f x, n)) (c + 1) rest) k = _
      unfold hasKey
      rw [List.any_cons, List.any_cons]
      unfold hasKey at ih
      rw [ih (c + 1)]

/-- C7: `MergeLines` emits first the template lines that are not in the
matching, in original order, with fresh contiguous identities starting
at the running line number and their old identities recorded in the
old-to-new map but not added to the new device lines; then the device
lines not in the matching, with fresh identities added to the new device
lines; then the matched pairs, whose fresh identities are recorded in
the old-to-new map (under the template line's old identity) and added to
the new device lines.  The hypotheses state that the template line
identities are pairwise distinct and not yet in the old-to-new map, and
that the matching is an injective map into the template lines. -/
theorem C7_mergeLines_output_order (templateLines deviceLines : List Line)
    (lineNum : Int) (pl : ParametersLinesMap) (matching : List (Nat × Nat))
    (oldtoNew : List (Int × Int)) (newDeviceLines : List Int) (device : String)
    (noOfAttributes : Nat)
    (hids : (templateLines.map Line.idNum).Nodup)
    (hmrange : ∀ p ∈ matching, p.1 < templateLines.length)
    (hmnodup : (matching.map Prod.fst).Nodup)
    (hfresh : ∀ i, i < templateLines.length →
      hasKey oldtoNew (templateLines.getD i []).idNum = false) :
    ∃ mergedPart : List Line,
      (PrefixList.MergeLines templateLines deviceLines lineNum pl matching
          oldtoNew newDeviceLines device noOfAttributes).combined =
        mapWithCtr (fun n i => (templateLines.getD i []).set (-1) (.int n)) lineNum
          (PrefixList.leftoutOf templateLines.length (matching.map Prod.fst)) ++
        mapWithCtr (fun n i => (deviceLines.getD i []).set (-1) (.int n))
          (lineNum + ((PrefixList.leftoutOf templateLines.length
            (matching.map Prod.fst)).length : Int))
          (PrefixList.leftoutOf deviceLines.length (matching.map Prod.snd)) ++
        mergedPart ∧
      mergedPart.length = matching.length ∧
      (∀ q : Nat, q < mergedPart.length →
        (mergedPart.getD q []).idNum =
          lineNum + ((PrefixList.leftoutOf templateLines.length
            (matching.map Prod.fst)).length : Int) +
          ((PrefixList.leftoutOf deviceLines.length
            (matching.map Prod.snd)).length : Int) + q) ∧
      (PrefixList.MergeLines templateLines deviceLines lineNum pl matching
          oldtoNew newDeviceLines device noOfAttributes).oldtoNew =
        oldtoNew ++
        mapWithCtr (fun n i => ((templateLines.getD i []).idNum, n)) lineNum
          (PrefixList.leftoutOf templateLines.length (matching.map Prod.fst)) ++
        mapWithCtr (fun n p => ((templateLines.getD p.1 []).idNum, n))
          (lineNum + ((PrefixList.leftoutOf templateLines.length
            (matching.map Prod.fst)).length : Int) +
           ((PrefixList.leftoutOf deviceLines.length
            (matching.map Prod.snd)).length : Int)) matching ∧
      (PrefixList.MergeLines templateLines deviceLines lineNum pl matching
          oldtoNew newDeviceLines device noOfAttributes).newDeviceLines =
        newDeviceLines ++
        mapWithCtr (fun n _ => n)
          (lineNum + ((PrefixList.leftoutOf templateLines.length
            (matching.map Prod.fst)).length : Int))
          (PrefixList.leftoutOf deviceLines.length (matching.map Prod.snd)) ++
        mapWithCtr (fun n _ => n)
          (lineNum + ((PrefixList.leftoutOf templateLines.length
            (matching.map Prod.fst)).length : Int) +
           ((PrefixList.leftoutOf deviceLines.length
            (matching.map Prod.snd)).length : Int)) matching := by
  set T := PrefixList.leftoutOf templateLines.length (matching.map Prod.fst) with hT
  set D := PrefixList.leftoutOf deviceLines.length (matching.map Prod.snd) with hD
  set pvm := pl.parameterDistribution with hpvm
  set s0 : PrefixList.MergeRes := ⟨[], lineNum, pl, oldtoNew, newDeviceLines⟩ with hs0
  set s1 := T.foldl (PrefixList.pass1Step templateLines) s0 with hs1
  set s2 := D.foldl (PrefixList.pass2Step deviceLines) s1 with hs2
  have hrun : PrefixList.MergeLines templateLines deviceLines lineNum pl matching
      oldtoNew newDeviceLines device noOfAttributes =
      matching.foldl (PrefixList.pass3Step pvm device noOfAttributes templateLines
        deviceLines) s2 := rfl
  -- identity of a template index in T
  have hTmem := PrefixList.leftoutOf_mem templateLines.length (matching.map Prod.fst)
  have hDmem := PrefixList.leftoutOf_mem deviceLines.length (matching.map Prod.snd)
  have hidinj : ∀ i, i < templateLines.length → ∀ i2, i2 < templateLines.length →
      (templateLines.getD i []).idNum = (templateLines.getD i2 []).idNum → i = i2 := by
    intro i hi i2 hi2 heq
    have e1 : (templateLines.map Line.idNum).getD i 0 = (templateLines.getD i []).idNum :=
      getD_map_fun Line.idNum templateLines i [] 0 hi
    have e2 : (templateLines.map Line.idNum).getD i2 0 = (templateLines.getD i2 []).idNum :=
      getD_map_fun Line.idNum templateLines i2 [] 0 hi2
    refine getD_inj hids ?_ ?_ (by rw [e1, e2, heq])
    · simpa using hi
    · simpa using hi2
  -- pass 1
  obtain ⟨hp1c, hp1n, hp1pl, hp1ndl⟩ := PrefixList.pass1_foldl templateLines T s0
  have hTidnodup : (T.map (fun i => (templateLines.getD i []).idNum)).Nodup := by
    refine List.Nodup.map_on ?_ (PrefixList.leftoutOf_nodup _ _)
    intro i hi i2 hi2 heq
    exact hidinj i (hTmem i hi).1 i2 (hTmem i2 hi2).1 heq
  have hp1otn := PrefixList.pass1_foldl_oldtoNew templateLines T s0 hTidnodup
    (fun i hi => hfresh i (hTmem i hi).1)
  -- pass 2
  obtain ⟨hp2c, hp2n, hp2pl, hp2otn, hp2ndl⟩ := PrefixList.pass2_foldl deviceLines D s1
  -- pass 3
  obtain ⟨lines3, hp3c, hp3len, hp3id, hp3n, hp3ndl⟩ :=
    PrefixList.pass3_foldl pvm device noOfAttributes templateLines deviceLines matching s2
  have hmatchid : (matching.map (fun p => (templateLines.getD p.1 []).idNum)).Nodup := by
    have : matching.map (fun p => (templateLines.getD p.1 []).idNum) =
        (matching.map Prod.fst).map (fun i => (templateLines.getD i []).idNum) := by
      rw [List.map_map]
      rfl
    rw [this]
    refine List.Nodup.map_on ?_ hmnodup
    intro i hi i2 hi2 heq
    obtain ⟨p, hp, hpi⟩ := List.mem_map.mp hi
    obtain ⟨p2, hp2, hpi2⟩ := List.mem_map.mp hi2
    exact hidinj i (hpi ▸ hmrange p hp) i2 (hpi2 ▸ hmrange p2 hp2) heq
  have hs2otn : s2.oldtoNew = oldtoNew ++
      mapWithCtr (fun n i => ((templateLines.getD i []).idNum, n)) lineNum T := by
    rw [hp2otn, hp1otn]
  have hp3fresh : ∀ p ∈ matching,
      hasKey s2.oldtoNew (templateLines.getD p.1 []).idNum = false := by
    intro p hp
    rw [hs2otn, hasKey_append]
    have ha : hasKey oldtoNew (templateLines.getD p.1 []).idNum = false :=
      hfresh p.1 (hmrange p hp)
    have hb : hasKey (mapWithCtr (fun n i => ((templateLines.getD i []).idNum, n))
        lineNum T) (templateLines.getD p.1 []).idNum = false := by
      rw [hasKey_mapWithCtr]
      rw [List.any_eq_false]
      intro i hi
      simp only [decide_eq_true_eq]
      intro heq
      have := hidinj i (hTmem i hi).1 p.1 (hmrange p hp) heq
      have hnotin := (hTmem i hi).2
      rw [this] at hnotin
      exact hnotin (List.mem_map_of_mem Prod.fst hp)
    rw [ha, hb]
    rfl
  have hp3otn := PrefixList.pass3_foldl_oldtoNew pvm device noOfAttributes
    templateLines deviceLines matching s2 hmatchid hp3fresh
  -- all the state equalities
  have hs1n : s1.lineNum = lineNum + (T.length : Int) := hp1n
  have hs2n : s2.lineNum = lineNum + (T.length : Int) + (D.length : Int) := by
    rw [hp2n, hs1n]
  have hs1c : s1.combined =
      mapWithCtr (fun n i => (templateLines.getD i []).set (-1) (.int n)) lineNum T := by
    rw [hp1c]
    simp
  have hs2c : s2.combined =
      mapWithCtr (fun n i => (templateLines.getD i []).set (-1) (.int n)) lineNum T ++
      mapWithCtr (fun n i => (deviceLines.getD i []).set (-1) (.int n))
        (lineNum + (T.length : Int)) D := by
    rw [hp2c, hs1c, hs1n]
  refine ⟨lines3, ?_, hp3len, ?_, ?_, ?_⟩
  · rw [hrun, hp3c, hs2c]
  · intro q hq
    rw [hp3id q hq, hs2n]
  · rw [hrun, hp3otn, hs2otn, hs2n]
  · rw [hrun, hp3ndl, hp2ndl, hp1ndl, hs1n, hs2n]

theorem getAssoc_map_fst_eq {κ α : Type} [DecidableEq κ] (m : List (κ × α))
    (g : κ × α → κ × α) (hg : ∀ e, (g e).1 = e.1) (k : κ) :
    getAssoc (m.map g) k =
      (m.find? (fun e => decide (e.1 = k))).map (fun e => (g e).2) := by
  induction m with
  | nil => rfl
  | cons e rest ih =>
      show getAssoc (g e :: rest.map g) k = _
      unfold getAssoc
      rw [List.find?_cons, List.find?_cons]
      by_cases he : e.1 = k
      · have h1 : (decide ((g e).1 = k)) = true := by rw [hg e]; simpa using he
        have h2 : (decide (e.1 = k)) = true := by simpa using he
        simp [h1, h2]
      · have h1 : (decide ((g e).1 = k)) = false := by rw [hg e]; simpa using he
        have h2 : (decide (e.1 = k)) = false := by simpa using he
        simp only [h1, h2]
        unfold getAssoc at ih
        exact ih

theorem getAssoc_of_hasKey {κ α : Type} [DecidableEq κ] {m : List (κ × α)} {k : κ}
    (h : hasKey m k = true) : ∃ v, getAssoc m k = some v := by
  induction m with
  | nil => simp [hasKey] at h
  | cons e rest ih =>
      rw [hasKey, List.any_cons] at h
      by_cases he : e.1 = k
      · refine ⟨e.2, ?_⟩
        unfold getAssoc
        rw [List.find?_cons]
        have : (decide (e.1 = k)) = true := by simpa using he
        simp [this]
      · have h2 : hasKey rest k = true := by
          rw [hasKey]
          rcases Bool.or_eq_true_iff.mp h with h1 | h1
          · exact absurd (by simpa using h1) he
          · exact h1
        obtain ⟨v, hv⟩ := ih h2
        refine ⟨v, ?_⟩
        unfold getAssoc
        rw [List.find?_cons]
        have : (decide (e.1 = k)) = false := by simpa using he
        simp only [this]
        unfold getAssoc at hv
        exact hv

theorem getAssoc_setParam_self (ps : List (String × List (String × PyVal)))
    (device param : String) (v : PyVal) :
    getAssoc (setParam ps device param v) device =
      some (setAssoc ((getAssoc ps device).getD []) param v) := by
  unfold setParam
  by_cases h : hasKey ps device
  · simp only [if_pos h]
    rw [getAssoc_map_fst_eq _ _ (fun e => by by_cases he : e.1 = device <;> simp [he])]
    rcases hfind : List.find? (fun e => decide (e.1 = device)) ps with _ | e
    · obtain ⟨pm, hpm⟩ := getAssoc_of_hasKey h
      unfold getAssoc at hpm
      rw [hfind] at hpm
      cases hpm
    · have hek : e.1 = device := by
        have := List.find?_some hfind
        simpa using this
      have hrhs : getAssoc ps device = some e.2 := by
        unfold getAssoc
        rw [hfind]
        rfl
      rw [hfind, hrhs]
      simp [hek]
  · simp only [if_neg h]
    have hbool : hasKey ps device = false := by simpa using h
    rw [getAssoc_append, getAssoc_not_has hbool]
    show getAssoc [(device, [(param, v)])] device = _
    unfold getAssoc
    rw [List.find?_cons]
    simp [setAssoc]

theorem getAssoc_setParam_ne (ps : List (String × List (String × PyVal)))
    (device param : String) (v : PyVal) (d : String) (hne : d ≠ device) :
    getAssoc (setParam ps device param v) d = getAssoc ps d := by
  unfold setParam
  by_cases h : hasKey ps device
  · simp only [if_pos h]
    rw [getAssoc_map_fst_eq _ _ (fun e => by by_cases he : e.1 = device <;> simp [he])]
    rcases hfind : List.find? (fun e => decide (e.1 = d)) ps with _ | e
    · unfold getAssoc
      rw [hfind]
      rfl
    · have hek : e.1 = d := by
        have := List.find?_some hfind
        simpa using this
      have hnd : ¬(e.1 = device) := by rw [hek]; exact hne
      unfold getAssoc
      rw [hfind]
      simp [hnd]
  · simp only [if_neg h]
    rw [getAssoc_append]
    rcases hfind : getAssoc ps d with _ | pm
    · simp only
      show getAssoc [(device, [(param, v)])] d = _
      unfold getAssoc
      rw [List.find?_cons]
      have hdn : (decide (device = d)) = false := by
        simp
        exact fun hc => hne hc.symm
      simp [hdn]
    · simp

theorem getAssoc_addParameter_ne (pl : ParametersLinesMap) (param : String)
    (value : PyVal) (newDevice : String) (d : String) (hne : d ≠ newDevice) :
    getAssoc (pl.addParameter param value newDevice).parameters d =
      (getAssoc pl.parameters d).map (fun pm => setAssoc pm param value) := by
  unfold ParametersLinesMap.addParameter
  simp only
  rw [getAssoc_map_fst_eq _ _ (fun e => by by_cases he : e.1 ≠ newDevice <;> simp [he])]
  rcases hfind : List.find? (fun e => decide (e.1 = d)) pl.parameters with _ | e
  · unfold getAssoc
    rw [hfind]
    rfl
  · have hek : e.1 = d := by
      have := List.find?_some hfind
      simpa using this
    have hnd : e.1 ≠ newDevice := by rw [hek]; exact hne
    unfold getAssoc
    rw [hfind]
    simp [hnd]

theorem getAssoc_addParameter_self (pl : ParametersLinesMap) (param : String)
    (value : PyVal) (newDevice : String) :
    getAssoc (pl.addParameter param value newDevice).parameters newDevice =
      getAssoc pl.parameters newDevice := by
  unfold ParametersLinesMap.addParameter
  simp only
  rw [getAssoc_map_fst_eq _ _ (fun e => by by_cases he : e.1 ≠ newDevice <;> simp [he])]
  rcases hfind : List.find? (fun e => decide (e.1 = newDevice)) pl.parameters with _ | e
  · unfold getAssoc
    rw [hfind]
    rfl
  · have hek : e.1 = newDevice := by
      have := List.find?_some hfind
      simpa using this
    unfold getAssoc
    rw [hfind]
    simp [hek]

/-- The base cell of the alignment dynamic program. -/
theorem dpCell_zero_zero (bs1 bs2 : List Block) (gapP : Block → Int)
    (subst : Block → Block → Int × List (Nat × Nat)) :
    MetaTemplater.dpCell bs1 bs2 gapP subst 0 0 = ⟨0, [-1], []⟩ := by
  rw [MetaTemplater.dpCell]

/-- The first row of the alignment dynamic program. -/
theorem dpCell_zero_succ (bs1 bs2 : List Block) (gapP : Block → Int)
    (subst : Block → Block → Int × List (Nat × Nat)) (j : Nat) :
    MetaTemplater.dpCell bs1 bs2 gapP subst 0 (j + 1) =
      ⟨(MetaTemplater.dpCell bs1 bs2 gapP subst 0 j).score +
        gapP (bs2.getD j dfltBlock), [0], []⟩ := by
  rw [MetaTemplater.dpCell]

/-- The first column of the alignment dynamic program. -/
theorem dpCell_succ_zero (bs1 bs2 : List Block) (gapP : Block → Int)
    (subst : Block → Block → Int × List (Nat × Nat)) (i : Nat) :
    MetaTemplater.dpCell bs1 bs2 gapP subst (i + 1) 0 =
      ⟨(MetaTemplater.dpCell bs1 bs2 gapP subst i 0).score +
        gapP (bs1.getD i dfltBlock), [0], []⟩ := by
  rw [MetaTemplater.dpCell]

/-- The inner cells of the alignment dynamic program, written with the
three candidate scores. -/
theorem dpCell_succ_succ (bs1 bs2 : List Block) (gapP : Block → Int)
    (subst : Block → Block → Int × List (Nat × Nat)) (i j : Nat) :
    MetaTemplater.dpCell bs1 bs2 gapP subst (i + 1) (j + 1) =
      (if MetaTemplater.dpDiag bs1 bs2 gapP subst i j ≤
          MetaTemplater.dpGap1 bs1 bs2 gapP subst i j then
        if MetaTemplater.dpDiag bs1 bs2 gapP subst i j ≤
            MetaTemplater.dpGap2 bs1 bs2 gapP subst i j then
          ⟨MetaTemplater.dpDiag bs1 bs2 gapP subst i j, [1],
            (subst (bs1.getD i dfltBlock) (bs2.getD j dfltBlock)).2⟩
        else ⟨MetaTemplater.dpGap2 bs1 bs2 gapP subst i j, [2], []⟩
      else
        if MetaTemplater.dpGap1 bs1 bs2 gapP subst i j ≤
            MetaTemplater.dpGap2 bs1 bs2 gapP subst i j then
          ⟨MetaTemplater.dpGap1 bs1 bs2 gapP subst i j, [3], []⟩
        else ⟨MetaTemplater.dpGap2 bs1 bs2 gapP subst i j, [2], []⟩) := by
  rw [MetaTemplater.dpCell]
  rfl

/-- C5: every inner cell of the alignment dynamic program scores the
minimum of the diagonal and the two gap options; on a tie between the
diagonal and a gap the diagonal is chosen (pointer [1]), and when the
first-sequence gap beats the diagonal and ties or beats the
second-sequence gap, the first-sequence gap is chosen (pointer [3]);
the second-sequence gap (pointer [2]) is chosen exactly in the
remaining cases. -/
theorem C5_alignment_dp_recurrence (bs1 bs2 : List Block) (gapP : Block → Int)
    (subst : Block → Block → Int × List (Nat × Nat)) (i j : Nat) :
    (MetaTemplater.dpCell bs1 bs2 gapP subst (i + 1) (j + 1)).score =
      min (MetaTemplater.dpDiag bs1 bs2 gapP subst i j)
        (min (MetaTemplater.dpGap1 bs1 bs2 gapP subst i j)
          (MetaTemplater.dpGap2 bs1 bs2 gapP subst i j)) ∧
    (MetaTemplater.dpDiag bs1 bs2 gapP subst i j ≤
        MetaTemplater.dpGap1 bs1 bs2 gapP subst i j →
      MetaTemplater.dpDiag bs1 bs2 gapP subst i j ≤
        MetaTemplater.dpGap2 bs1 bs2 gapP subst i j →
      (MetaTemplater.dpCell bs1 bs2 gapP subst (i + 1) (j + 1)).pointer = [1]) ∧
    (MetaTemplater.dpGap1 bs1 bs2 gapP subst i j <
        MetaTemplater.dpDiag bs1 bs2 gapP subst i j →
      MetaTemplater.dpGap1 bs1 bs2 gapP subst i j ≤
        MetaTemplater.dpGap2 bs1 bs2 gapP subst i j →
      (MetaTemplater.dpCell bs1 bs2 gapP subst (i + 1) (j + 1)).pointer = [3]) ∧
    ((MetaTemplater.dpGap2 bs1 bs2 gapP subst i j <
        MetaTemplater.dpDiag bs1 bs2 gapP subst i j ∧
      (MetaTemplater.dpGap2 bs1 bs2 gapP subst i j <
        MetaTemplater.dpGap1 bs1 bs2 gapP subst i j ∨
       MetaTemplater.dpDiag bs1 bs2 gapP subst i j ≤
        MetaTemplater.dpGap1 bs1 bs2 gapP subst i j)) →
      (MetaTemplater.dpCell bs1 bs2 gapP subst (i + 1) (j + 1)).pointer = [2]) := by
  have hcell : MetaTemplater.dpCell bs1 bs2 gapP subst (i + 1) (j + 1) =
      (if MetaTemplater.dpDiag bs1 bs2 gapP subst i j ≤
          MetaTemplater.dpGap1 bs1 bs2 gapP subst i j then
        if MetaTemplater.dpDiag bs1 bs2 gapP subst i j ≤
            MetaTemplater.dpGap2 bs1 bs2 gapP subst i j then
          ⟨MetaTemplater.dpDiag bs1 bs2 gapP subst i j, [1],
            (subst (bs1.getD i dfltBlock) (bs2.getD j dfltBlock)).2⟩
        else ⟨MetaTemplater.dpGap2 bs1 bs2 gapP subst i j, [2], []⟩
      else
        if MetaTemplater.dpGap1 bs1 bs2 gapP subst i j ≤
            MetaTemplater.dpGap2 bs1 bs2 gapP subst i j then
          ⟨MetaTemplater.dpGap1 bs1 bs2 gapP subst i j, [3], []⟩
        else ⟨MetaTemplater.dpGap2 bs1 bs2 gapP subst i j, [2], []⟩) := by
    rw [MetaTemplater.dpCell]
    rfl
  set d := MetaTemplater.dpDiag bs1 bs2 gapP subst i j
  set g1 := MetaTemplater.dpGap1 bs1 bs2 gapP subst i j
  set g2 := MetaTemplater.dpGap2 bs1 bs2 gapP subst i j
  by_cases h1 : d ≤ g1
  · by_cases h2 : d ≤ g2
    · rw [hcell, if_pos h1, if_pos h2]
      refine ⟨?_, fun _ _ => rfl, fun ha hb => ?_, fun hab => ?_⟩
      · show d = min d (min g1 g2)
        omega
      · exfalso; omega
      · exfalso; omega
    · rw [hcell, if_pos h1, if_neg h2]
      refine ⟨?_, fun ha hb => ?_, fun ha hb => ?_, fun hab => rfl⟩
      · show g2 = min d (min g1 g2)
        omega
      · exfalso; omega
      · exfalso; omega
  · by_cases h3 : g1 ≤ g2
    · rw [hcell, if_neg h1, if_pos h3]
      refine ⟨?_, fun ha hb => ?_, fun ha hb => rfl, fun hab => ?_⟩
      · show g1 = min d (min g1 g2)
        omega
      · exfalso; omega
      · exfalso; omega
    · rw [hcell, if_neg h1, if_neg h3]
      refine ⟨?_, fun ha hb => ?_, fun ha hb => ?_, fun hab => rfl⟩
      · show g2 = min d (min g1 g2)
        omega
      · exfalso; omega
      · exfalso; omega

/-- C6: in `MergeLines`, a matched-pair attribute present on both sides
with unequal values, whose template value is not currently a parameter
name of the parameter-value map, allocates the fresh parameter
P&lt;counter&gt;, increments the counter, assigns the device value for the new
device, assigns the old template literal for every other device already
in the parameter table, and replaces the attribute with the parameter.
Concretely, merging the one-line prefix-lists `permit 10.0.0.0/8 exact`
and `permit 10.1.0.0/8 exact` creates exactly one parameter P0, with
value "0" for the first device and "1" for the second, at the
second-octet attribute (index 4). -/
theorem C6_fresh_parameter_allocation :
    (∀ (pvm : ParamValueMap) (device : String) (tLine dLine : Line) (k : Int)
        (line : Line) (pl : ParametersLinesMap),
      truthy (tLine.get k) = true → truthy (dLine.get k) = true →
      tLine.get k ≠ dLine.get k → pvmLookup pvm (tLine.get k) = none →
      (PrefixList.mergeAttrStep pvm device tLine dLine k (line, pl)).1 =
          line.set k (.str ("P" ++ toString pl.counter)) ∧
      (PrefixList.mergeAttrStep pvm device tLine dLine k (line, pl)).2.counter =
          pl.counter + 1 ∧
      getAssoc ((getAssoc (PrefixList.mergeAttrStep pvm device tLine dLine k
          (line, pl)).2.parameters device).getD []) ("P" ++ toString pl.counter) =
        some ((dLine.get k).getD (.str "")) ∧
      (∀ d : String, d ≠ device → hasKey pl.parameters d = true →
        getAssoc ((getAssoc (PrefixList.mergeAttrStep pvm device tLine dLine k
            (line, pl)).2.parameters d).getD []) ("P" ++ toString pl.counter) =
          some ((tLine.get k).getD (.str "")))) ∧
    (c6merge.pl.counter = 1 ∧
      getAssoc ((getAssoc c6merge.pl.parameters "A").getD []) "P0" =
        some (.str "0") ∧
      getAssoc ((getAssoc c6merge.pl.parameters "B").getD []) "P0" =
        some (.str "1") ∧
      (c6merge.combined.getD 0 []).get 4 = some (.str "P0")) := by
  constructor
  · intro pvm device tLine dLine k line pl ht hd hne hlit
    have hstep : PrefixList.mergeAttrStep pvm device tLine dLine k (line, pl) =
        (line.set k (.str ("P" ++ toString pl.counter)),
          ({ pl with
              counter := pl.counter + 1
              parameters := setParam pl.parameters device
                ("P" ++ toString pl.counter) ((dLine.get k).getD (.str "")) } :
            ParametersLinesMap).addParameter ("P" ++ toString pl.counter)
            ((tLine.get k).getD (.str "")) device) := by
      unfold PrefixList.mergeAttrStep
      simp [ht, hd, hne, hlit]
    refine ⟨by rw [hstep], by rw [hstep]; rfl, ?_, ?_⟩
    · rw [hstep]
      rw [getAssoc_addParameter_self]
      rw [getAssoc_setParam_self]
      simp only [Option.getD_some]
      rw [getAssoc_setAssoc_self]
    · intro d hdne hhas
      rw [hstep]
      rw [getAssoc_addParameter_ne _ _ _ _ _ hdne]
      rw [getAssoc_setParam_ne _ _ _ _ _ hdne]
      obtain ⟨pm, hpm⟩ := getAssoc_of_hasKey hhas
      rw [hpm]
      show getAssoc (setAssoc pm ("P" ++ toString pl.counter)
        ((tLine.get k).getD (.str ""))) ("P" ++ toString pl.counter) = _
      rw [getAssoc_setAssoc_self]
  · refine ⟨by decide, by decide, by decide, by decide⟩

/-- C6 witness: the allocation step applied at the concrete attribute 4
of the two scenario lines. -/
theorem C6_fresh_parameter_allocation_witness :
    (PrefixList.mergeAttrStep [] "B" (PrefixList.plLine 0 ⟨"PERMIT", "10.0.0.0/8", "8-8"⟩)
        (PrefixList.plLine 0 ⟨"PERMIT", "10.1.0.0/8", "8-8"⟩) 4
        (PrefixList.plLine 0 ⟨"PERMIT", "10.0.0.0/8", "8-8"⟩, c6pl0)).2.counter = 0 + 1 :=
  (C6_fresh_parameter_allocation.1 [] "B"
    (PrefixList.plLine 0 ⟨"PERMIT", "10.0.0.0/8", "8-8"⟩)
    (PrefixList.plLine 0 ⟨"PERMIT", "10.1.0.0/8", "8-8"⟩) 4
    (PrefixList.plLine 0 ⟨"PERMIT", "10.0.0.0/8", "8-8"⟩) c6pl0
    (by decide) (by decide) (by decide) (by decide)).2.1

/-- C7 witness: the ordering theorem applied to a concrete merge of a
two-line template with a one-line device segment matching the second
template line; the new device lines are exactly the identity of that one
merged pair. -/
theorem C7_mergeLines_output_order_witness :
    (PrefixList.MergeLines [c7t0, c7t1] [c7d0] 0 c7pl [(1, 0)] [] [] "B" 11).newDeviceLines =
      [1] := by
  obtain ⟨mp, h1, h2, h3, h4, h5⟩ := C7_mergeLines_output_order [c7t0, c7t1] [c7d0] 0 c7pl
    [(1, 0)] [] [] "B" 11 (by decide) (by decide) (by decide) (by decide)
  rw [h5]
  decide

/-- The bipartite matcher on two single-line sequences whose lines hash
differently and score INFINITY under the ACL line score: the single
solver assignment is discarded, the total is one ACL line penalty, and
no pair is matched. -/
theorem bipartite_single_acl (t d : Line) (pvm : ParamValueMap)
    (solver : List (List Int) → List (Nat × Nat))
    (hfro : frozenItems t ≠ frozenItems d)
    (hinf : ACL.LineScore t d pvm = INFINITY)
    (hsolv : solver [[INFINITY]] = [(0, 0)]) :
    PrefixList.BipartiteMatching [t] [d] pvm ACL.ATTRIBUTES solver =
      (ACL.LINE_PENALTY, []) := by
  have hfind : List.find? (fun e => decide (e.1 = frozenItems d))
      [(frozenItems t, ([0] : List Nat))] = none := by
    simp [List.find?_cons, hfro]
  have hloop : PrefixList.hashLoop [t] [d] =
      ⟨[(frozenItems t, [0])], [], [], []⟩ := by
    show PrefixList.hashStep ⟨[(frozenItems t, [0])], [], [], []⟩ 0 d = _
    exact PrefixList.hashStep_none hfind
  have hleft1 : PrefixList.bmLeft1 [t] [d] = [(0, t)] := by
    unfold PrefixList.bmLeft1
    rw [hloop]
    rfl
  have hleft2 : PrefixList.bmLeft2 [t] [d] = [(0, d)] := by
    unfold PrefixList.bmLeft2
    rw [hloop]
    rfl
  have hsf : PrefixList.lineScoreFor ACL.ATTRIBUTES = ACL.LineScore := by
    unfold PrefixList.lineScoreFor
    rw [if_neg (by decide)]
  have hpen : PrefixList.linePenaltyFor ACL.ATTRIBUTES = ACL.LINE_PENALTY := by
    unfold PrefixList.linePenaltyFor
    rw [if_neg (by decide)]
  have hmat : PrefixList.bmMatrix [t] [d] pvm ACL.ATTRIBUTES = [[INFINITY]] := by
    unfold PrefixList.bmMatrix
    rw [hleft1, hleft2, hsf]
    show [[ACL.LineScore t d pvm]] = [[INFINITY]]
    rw [hinf]
  have hind : PrefixList.bmIndices [t] [d] pvm ACL.ATTRIBUTES solver = [(0, 0)] := by
    unfold PrefixList.bmIndices
    rw [hmat, if_pos (by norm_num)]
    exact hsolv
  unfold PrefixList.BipartiteMatching
  rw [hmat, hind, hpen, hloop, hleft1, hleft2]
  show ((PrefixList.assignFold [[INFINITY]] ACL.LINE_PENALTY [0] [0] [(0, 0)]
      (0, [])).1 + ACL.LINE_PENALTY * (((1 : Int) - 1).natAbs : Int),
      (PrefixList.assignFold [[INFINITY]] ACL.LINE_PENALTY [0] [0] [(0, 0)]
      (0, [])).2) = (ACL.LINE_PENALTY, [])
  decide

/-- C3, counterexample: for two one-line ACL blocks with equal actions
and different protocols, the bipartite matcher returns the ACL line
penalty 40 — not INFINITY — with zero matched pairs, and the alignment
cell (1,1) scores exactly one LINE_PENALTY_ACL (40), not
2 × LINE_PENALTY_ACL = 80. -/
theorem C3_matcher_mismatch_counterexample :
    PrefixList.BipartiteMatching [c3tLine] [c3dLine] [] ACL.ATTRIBUTES diagSolver =
      (ACL.LINE_PENALTY, []) ∧
    ACL.LINE_PENALTY ≠ INFINITY ∧
    (MetaTemplater.dpCell [c3blockT] [c3blockD] ACL.GapPenalty
        (fun b1 b2 => MetaTemplater.MisMatchScore b1 b2 [] ACL.ATTRIBUTES diagSolver)
        1 1).score = ACL.LINE_PENALTY ∧
    ACL.LINE_PENALTY ≠ 2 * ACL.LINE_PENALTY := by
  refine ⟨by decide, by decide, ?_, by decide⟩
  have hdd : MetaTemplater.dpDiag [c3blockT] [c3blockD] ACL.GapPenalty
      (fun b1 b2 => MetaTemplater.MisMatchScore b1 b2 [] ACL.ATTRIBUTES diagSolver)
      0 0 = ACL.LINE_PENALTY := by
    unfold MetaTemplater.dpDiag
    rw [dpCell_zero_zero]
    decide
  have hg1 : MetaTemplater.dpGap1 [c3blockT] [c3blockD] ACL.GapPenalty
      (fun b1 b2 => MetaTemplater.MisMatchScore b1 b2 [] ACL.ATTRIBUTES diagSolver)
      0 0 = 2 * ACL.LINE_PENALTY := by
    unfold MetaTemplater.dpGap1
    rw [dpCell_zero_succ, dpCell_zero_zero]
    decide
  have hg2 : MetaTemplater.dpGap2 [c3blockT] [c3blockD] ACL.GapPenalty
      (fun b1 b2 => MetaTemplater.MisMatchScore b1 b2 [] ACL.ATTRIBUTES diagSolver)
      0 0 = 2 * ACL.LINE_PENALTY := by
    unfold MetaTemplater.dpGap2
    rw [dpCell_succ_zero, dpCell_zero_zero]
    decide
  show (MetaTemplater.dpCell [c3blockT] [c3blockD] ACL.GapPenalty
      (fun b1 b2 => MetaTemplater.MisMatchScore b1 b2 [] ACL.ATTRIBUTES diagSolver)
      (0 + 1) (0 + 1)).score = ACL.LINE_PENALTY
  rw [dpCell_succ_succ, hdd, hg1, hg2]
  norm_num [ACL.LINE_PENALTY]

/-- C3, amended: for two one-block, one-line ACL segments with equal
actions and different protocol attributes, and any solver output on the
single-cell matrix, the bipartite matcher returns the ACL line penalty
40 — not INFINITY — and reports zero matched pairs; the alignment cell
(1,1) adds exactly one LINE_PENALTY_ACL (40), not 2 × LINE_PENALTY_ACL;
and the merger emits both lines as separate, consecutively numbered
lines of the meta-template. -/
theorem C3_acl_protocol_mismatch (t d : Line) (pvm : ParamValueMap)
    (pl : ParametersLinesMap) (num : Int) (device act : String)
    (solver : List (List Int) → List (Nat × Nat))
    (hkt : (t.map Prod.fst).Nodup) (hkd : (d.map Prod.fst).Nodup)
    (hproto : t.get (-2) ≠ d.get (-2))
    (hsolv : solver [[INFINITY]] = [(0, 0)]) :
    PrefixList.BipartiteMatching [t] [d] pvm ACL.ATTRIBUTES solver =
      (ACL.LINE_PENALTY, []) ∧
    ACL.LINE_PENALTY ≠ INFINITY ∧
    (MetaTemplater.dpCell [⟨act, [t]⟩] [⟨act, [d]⟩] ACL.GapPenalty
        (fun b1 b2 => MetaTemplater.MisMatchScore b1 b2 pvm ACL.ATTRIBUTES solver)
        1 1).score = ACL.LINE_PENALTY ∧
    (PrefixList.MergeLines [t] [d] num pl
        (PrefixList.BipartiteMatching [t] [d] pvm ACL.ATTRIBUTES solver).2
        [] [] device ACL.ATTRIBUTES).combined =
      [t.set (-1) (.int num), d.set (-1) (.int (num + 1))] := by
  have hfro : frozenItems t ≠ frozenItems d := fun hc =>
    hproto (get_eq_of_frozenItems_eq hkt hkd hc (-2) (by decide))
  have hinf : ACL.LineScore t d pvm = INFINITY :=
    lineScore_infinity_of_tag_ne t d pvm hproto
  have h1 := bipartite_single_acl t d pvm solver hfro hinf hsolv
  have hms : MetaTemplater.MisMatchScore ⟨act, [t]⟩ ⟨act, [d]⟩ pvm
      ACL.ATTRIBUTES solver = (ACL.LINE_PENALTY, []) := by
    unfold MetaTemplater.MisMatchScore
    rw [if_neg (by simp)]
    exact h1
  refine ⟨h1, by decide, ?_, ?_⟩
  · have hdd : MetaTemplater.dpDiag [⟨act, [t]⟩] [⟨act, [d]⟩] ACL.GapPenalty
        (fun b1 b2 => MetaTemplater.MisMatchScore b1 b2 pvm ACL.ATTRIBUTES solver)
        0 0 = ACL.LINE_PENALTY := by
      unfold MetaTemplater.dpDiag
      rw [dpCell_zero_zero]
      show (0 : Int) + (MetaTemplater.MisMatchScore ⟨act, [t]⟩ ⟨act, [d]⟩ pvm
        ACL.ATTRIBUTES solver).1 = ACL.LINE_PENALTY
      rw [hms]
      decide
    have hg1 : MetaTemplater.dpGap1 [⟨act, [t]⟩] [⟨act, [d]⟩] ACL.GapPenalty
        (fun b1 b2 => MetaTemplater.MisMatchScore b1 b2 pvm ACL.ATTRIBUTES solver)
        0 0 = 2 * ACL.LINE_PENALTY := by
      unfold MetaTemplater.dpGap1
      rw [dpCell_zero_succ, dpCell_zero_zero]
      show (0 : Int) + ACL.GapPenalty ⟨act, [d]⟩ + ACL.GapPenalty ⟨act, [t]⟩ =
        2 * ACL.LINE_PENALTY
      norm_num [ACL.GapPenalty, ACL.LINE_PENALTY]
    have hg2 : MetaTemplater.dpGap2 [⟨act, [t]⟩] [⟨act, [d]⟩] ACL.GapPenalty
        (fun b1 b2 => MetaTemplater.MisMatchScore b1 b2 pvm ACL.ATTRIBUTES solver)
        0 0 = 2 * ACL.LINE_PENALTY := by
      unfold MetaTemplater.dpGap2
      rw [dpCell_succ_zero, dpCell_zero_zero]
      show (0 : Int) + ACL.GapPenalty ⟨act, [t]⟩ + ACL.GapPenalty ⟨act, [d]⟩ =
        2 * ACL.LINE_PENALTY
      norm_num [ACL.GapPenalty, ACL.LINE_PENALTY]
    show (MetaTemplater.dpCell [⟨act, [t]⟩] [⟨act, [d]⟩] ACL.GapPenalty
        (fun b1 b2 => MetaTemplater.MisMatchScore b1 b2 pvm ACL.ATTRIBUTES solver)
        (0 + 1) (0 + 1)).score = ACL.LINE_PENALTY
    rw [dpCell_succ_succ, hdd, hg1, hg2]
    norm_num [ACL.LINE_PENALTY]
  · have h2 : (PrefixList.BipartiteMatching [t] [d] pvm ACL.ATTRIBUTES solver).2 =
        [] := by rw [h1]
    rw [h2]
    rfl

/-- C3 witness: the amended theorem applied to the two concrete
protocol-mismatch lines, with the diagonal solver. -/
theorem C3_acl_protocol_mismatch_witness :
    PrefixList.BipartiteMatching [c3tLine] [c3dLine] [] ACL.ATTRIBUTES diagSolver =
      (ACL.LINE_PENALTY, []) :=
  (C3_acl_protocol_mismatch c3tLine c3dLine []
    ⟨0, [("A", []), ("B", [])], [("A", [0])], [], []⟩ 0 "B" "PERMIT" diagSolver
    (by decide) (by decide) (by decide) rfl).1

/-- A failing device fails the whole device loop. -/
theorem sgdl_error_of_mem {σ : Type} (gbs : String → Except Unit σ)
    (devices : List String) (d : String) (hd : d ∈ devices)
    (herr : gbs d = .error ()) : SGdeviceLoop gbs devices = .error () := by
  induction devices with
  | nil => cases hd
  | cons a rest ih =>
      rcases List.mem_cons.mp hd with h | h
      · unfold SGdeviceLoop
        rw [← h, herr]
      · unfold SGdeviceLoop
        cases hga : gbs a with
        | error e => cases e; rfl
        | ok s => rw [ih h]

/-- The scan fold accumulates one tally per failing pattern and one done
entry per succeeding pattern. -/
theorem scan_foldl {α : Type} (run : String → Except Unit α) :
    ∀ (ps : List String) (st : ScanState α),
      (ps.foldl (scanStep run) st).errorTally =
        st.errorTally + (ps.filter (fun q => !exceptOk (run q))).length ∧
      (ps.foldl (scanStep run) st).done =
        st.done ++ ps.filterMap (fun q =>
          match run q with | .ok a => some (q, a) | .error _ => none) := by
  intro ps
  induction ps with
  | nil => intro st; simp
  | cons p rest ih =>
      intro st
      rw [List.foldl_cons]
      obtain ⟨h1, h2⟩ := ih (scanStep run st p)
      cases hrp : run p with
      | ok a =>
          have hs : scanStep run st p = { st with done := st.done ++ [(p, a)] } := by
            unfold scanStep
            rw [hrp]
          constructor
          · rw [h1, hs]
            simp [List.filter_cons, exceptOk, hrp]
          · rw [h2, hs]
            simp [List.filterMap_cons, hrp]
      | error e =>
          cases e
          have hs : scanStep run st p =
              { st with errorTally := st.errorTally + 1 } := by
            unfold scanStep
            rw [hrp]
          constructor
          · rw [h1, hs]
            simp [List.filter_cons, exceptOk, hrp]
            omega
          · rw [h2, hs]
            simp [List.filterMap_cons, hrp]

/-- C2, counterexample: device "d3" of pattern "P" parses fine, yet the
failure of device "d2" aborts the whole pattern — nothing of pattern "P"
is templated, so the remaining device "d3" of that same pattern is NOT
processed; the tally is incremented and the scan continues with the next
pattern "Q". -/
theorem C2_bad_device_aborts_pattern :
    c2gbs "P" "d3" = .ok [[(-1, .int 0)]] ∧
    SGdeviceLoop (c2gbs "P") ["d1", "d2", "d3"] = .error () ∧
    (AllSegmentsScan (fun q => SGdeviceLoop (c2gbs q) ["d1", "d2", "d3"])
      ["P", "Q"]).errorTally = 1 ∧
    (AllSegmentsScan (fun q => SGdeviceLoop (c2gbs q) ["d1", "d2", "d3"])
      ["P", "Q"]).done.map Prod.fst = ["Q"] :=
  ⟨rfl, rfl, rfl, rfl⟩

/-- C2, amended: an ingestion error while parsing one device's segment
aborts the whole pattern — the device loop of
`StructuredGeneralization` propagates the exception, so no device of
that pattern is templated, not even those that parse cleanly — while the
driver's per-pattern try/except increments the `Error` tally once per
failing pattern and still processes every pattern whose devices all
parse; one bad segment never aborts the scan over the remaining
patterns. -/
theorem C2_error_granularity {σ : Type} (gbs : String → String → Except Unit σ)
    (patterns devices : List String) (p d : String)
    (hd : d ∈ devices) (herr : gbs p d = .error ()) :
    SGdeviceLoop (gbs p) devices = .error () ∧
    (AllSegmentsScan (fun q => SGdeviceLoop (gbs q) devices) patterns).errorTally =
      (patterns.filter (fun q => !exceptOk (SGdeviceLoop (gbs q) devices))).length ∧
    p ∉ (AllSegmentsScan (fun q => SGdeviceLoop (gbs q) devices)
      patterns).done.map Prod.fst ∧
    (∀ q ∈ patterns, exceptOk (SGdeviceLoop (gbs q) devices) = true →
      q ∈ (AllSegmentsScan (fun q2 => SGdeviceLoop (gbs q2) devices)
        patterns).done.map Prod.fst) := by
  have h0 : SGdeviceLoop (gbs p) devices = .error () :=
    sgdl_error_of_mem (gbs p) devices d hd herr
  obtain ⟨ht, hdn⟩ :=
    scan_foldl (fun q => SGdeviceLoop (gbs q) devices) patterns ⟨0, []⟩
  refine ⟨h0, ?_, ?_, ?_⟩
  · unfold AllSegmentsScan
    rw [ht]
    simp
  · intro hc
    unfold AllSegmentsScan at hc
    rw [hdn] at hc
    simp only [List.nil_append, List.mem_map] at hc
    obtain ⟨pair, hpair, hfst⟩ := hc
    obtain ⟨q, hq, hfq⟩ := List.mem_filterMap.mp hpair
    cases hrq : SGdeviceLoop (gbs q) devices with
    | error e =>
        rw [hrq] at hfq
        cases hfq
    | ok a =>
        rw [hrq] at hfq
        have hqp : q = p := by
          have := congrArg (fun o => (Option.map Prod.fst o).getD "") hfq
          simpa using hfst ▸ this
        rw [hqp, h0] at hrq
        cases hrq
  · intro q hq hok
    cases hrq : SGdeviceLoop (gbs q) devices with
    | error e =>
        rw [hrq] at hok
        cases hok
    | ok a =>
        unfold AllSegmentsScan
        rw [hdn]
        simp only [List.nil_append, List.mem_map]
        refine ⟨(q, a), List.mem_filterMap.mpr ⟨q, hq, ?_⟩, rfl⟩
        rw [hrq]

/-- C2 witness: the granularity theorem at the concrete scenario, whose
first conclusion shows pattern "P" aborting entirely. -/
theorem C2_error_granularity_witness :
    SGdeviceLoop (c2gbs "P") ["d1", "d2", "d3"] = .error () :=
  (C2_error_granularity c2gbs ["P", "Q"] ["d1", "d2", "d3"] "P" "d2"
    (by decide) rfl).1

/-- Appending to the matching tuples preserves the bitmaps. -/
theorem map_if_fst_eq (v : Nat) (bm : List Nat) :
    ∀ stt : List (List Nat × List Nat),
      ((stt.map (fun t => if t.1 = bm then (t.1, t.2 ++ [v]) else t)).map
        Prod.fst) = stt.map Prod.fst := by
  intro stt
  induction stt with
  | nil => rfl
  | cons t rest ih =>
      by_cases h : t.1 = bm <;> simp [h, ih]

/-- When no tuple carries the bitmap, the append-to-matching map is the
identity. -/
theorem map_if_not_mem (v : Nat) (bm : List Nat) :
    ∀ stt : List (List Nat × List Nat), bm ∉ stt.map Prod.fst →
      stt.map (fun t => if t.1 = bm then (t.1, t.2 ++ [v]) else t) = stt := by
  intro stt
  induction stt with
  | nil => intro _; rfl
  | cons t rest ih =>
      intro hnm
      simp only [List.map_cons, List.mem_cons, not_or] at hnm
      have h : ¬ t.1 = bm := fun hc => hnm.1 hc.symm
      simp [h, ih hnm.2]

/-- Appending a line to the unique tuple with its bitmap permutes the
flattened contents to the old contents plus that line. -/
theorem flatten_map_append_of_mem (v : Nat) :
    ∀ (stt : List (List Nat × List Nat)) (bm : List Nat),
      (stt.map Prod.fst).Nodup →
      stt.any (fun t => decide (t.1 = bm)) = true →
      List.Perm
        ((stt.map (fun t => if t.1 = bm then (t.1, t.2 ++ [v]) else t)).map
          Prod.snd).flatten
        ((stt.map Prod.snd).flatten ++ [v]) := by
  intro stt
  induction stt with
  | nil => intro bm _ hany; simp at hany
  | cons t rest ih =>
      intro bm hnd hany
      rw [List.map_cons] at hnd
      by_cases h : t.1 = bm
      · have hrest : rest.map (fun u => if u.1 = bm then (u.1, u.2 ++ [v]) else u) =
            rest := by
          apply map_if_not_mem
          intro hc
          exact (List.nodup_cons.mp hnd).1 (h ▸ hc)
        simp only [List.map_cons, if_pos h, hrest, List.flatten_cons]
        rw [List.append_assoc, List.append_assoc]
        exact List.Perm.append_left t.2 List.perm_append_comm
      · have hany2 : rest.any (fun u => decide (u.1 = bm)) = true := by
          rcases List.any_eq_true.mp hany with ⟨u, hu, hpu⟩
          rcases List.mem_cons.mp hu with h1 | h1
          · exact absurd (by rw [← h1]; exact of_decide_eq_true hpu) h
          · exact List.any_eq_true.mpr ⟨u, h1, hpu⟩
        have hih := ih bm (List.nodup_cons.mp hnd).2 hany2
        simp only [List.map_cons, if_neg h, List.flatten_cons]
        rw [List.append_assoc]
        exact List.Perm.append_left t.2 hih

/-- The truth-table fold keeps the bitmaps distinct and distributes the
folded line identities, each exactly once, over the tuples. -/
theorem truthTable_fold (f : Nat → List Nat) :
    ∀ (vs : List Nat) (stt : List (List Nat × List Nat)),
      (stt.map Prod.fst).Nodup →
      (((vs.foldl (fun s v => addToTruthAll s (f v) v) stt).map Prod.fst).Nodup ∧
        List.Perm
          ((vs.foldl (fun s v => addToTruthAll s (f v) v) stt).map
            Prod.snd).flatten
          ((stt.map Prod.snd).flatten ++ vs)) := by
  intro vs
  induction vs with
  | nil => intro stt h; exact ⟨h, by simp⟩
  | cons v rest ih =>
      intro stt h
      rw [List.foldl_cons]
      by_cases hfound : stt.any (fun t => decide (t.1 = f v)) = true
      · have hstep : addToTruthAll stt (f v) v =
            stt.map (fun t => if t.1 = f v then (t.1, t.2 ++ [v]) else t) := by
          unfold addToTruthAll
          rw [if_pos hfound]
        have hnd2 : ((addToTruthAll stt (f v) v).map Prod.fst).Nodup := by
          rw [hstep, map_if_fst_eq]
          exact h
        obtain ⟨ih1, ih2⟩ := ih (addToTruthAll stt (f v) v) hnd2
        refine ⟨ih1, ih2.trans ?_⟩
        have hp : List.Perm ((addToTruthAll stt (f v) v).map Prod.snd).flatten
            ((stt.map Prod.snd).flatten ++ [v]) := by
          rw [hstep]
          exact flatten_map_append_of_mem v stt (f v) h hfound
        have := hp.append_right rest
        rw [List.append_assoc] at this
        exact this
      · have hstep : addToTruthAll stt (f v) v = stt ++ [(f v, [v])] := by
          unfold addToTruthAll
          rw [if_neg hfound]
        have hnotmem : f v ∉ stt.map Prod.fst := by
          intro hc
          obtain ⟨t, ht, hteq⟩ := List.mem_map.mp hc
          exact hfound (List.any_eq_true.mpr ⟨t, ht, by simp [hteq]⟩)
        have hnd2 : ((addToTruthAll stt (f v) v).map Prod.fst).Nodup := by
          rw [hstep, List.map_append]
          simp [List.nodup_append, h, hnotmem]
        obtain ⟨ih1, ih2⟩ := ih (addToTruthAll stt (f v) v) hnd2
        refine ⟨ih1, ih2.trans ?_⟩
        rw [hstep]
        have hfl : ((stt ++ [(f v, [v])]).map Prod.snd).flatten =
            (stt.map Prod.snd).flatten ++ [v] := by
          simp
        rw [hfl, List.append_assoc]
        exact List.Perm.refl _

/-- The naming fold keeps each tuple's line list, in order. -/
theorem pgNameStep_fold (allT : List Nat) :
    ∀ (ts : List (List Nat × List Nat)) (acc : List (String × List Nat)) (c : Nat),
      ((ts.foldl (pgNameStep allT) (acc, c)).1).map Prod.snd =
        acc.map Prod.snd ++ ts.map Prod.snd := by
  intro ts
  induction ts with
  | nil => intro acc c; simp
  | cons t rest ih =>
      intro acc c
      rw [List.foldl_cons]
      by_cases h : t.1 ≠ allT
      · have hs : pgNameStep allT (acc, c) t =
            (acc ++ [("R" ++ toString c, t.2)], c + 1) := by
          unfold pgNameStep
          rw [if_pos h]
        rw [hs, ih]
        simp
      · have hs : pgNameStep allT (acc, c) t = (acc ++ [("A", t.2)], c) := by
          unfold pgNameStep
          rw [if_neg h]
        rw [hs, ih]
        simp

/-- Renumbering the predicates maps their flattened contents. -/
theorem renamePredicates_flatten (o2n : List (Nat × Nat))
    (preds : List (String × List Nat)) :
    ((renamePredicates o2n preds).map Prod.snd).flatten =
      ((preds.map Prod.snd).flatten).map (fun l => (getAssoc o2n l).getD l) := by
  unfold renamePredicates
  rw [List.map_flatten, List.map_map, List.map_map]
  rfl

/-- C9: after predicate generation and renumbering — for any line
mapping and any old-to-new identity map that permutes the contiguous
identity range of the meta-template — the predicates' line-identity
lists contain every line identity of [0, totalLines] exactly once
(their flattened contents are a permutation of the full contiguous
range), are pairwise disjoint, and are each duplicate-free. -/
theorem C9_predicate_partition (lineMapping : List (String × List Nat))
    (totalLines : Nat) (o2n : List (Nat × Nat))
    (hbij : List.Perm ((List.range (totalLines + 1)).map
        (fun l => (getAssoc o2n l).getD l)) (List.range (totalLines + 1))) :
    List.Perm (((renamePredicates o2n (pgPredicates (pgGroups lineMapping)
        totalLines)).map Prod.snd).flatten) (List.range (totalLines + 1)) ∧
    ((renamePredicates o2n (pgPredicates (pgGroups lineMapping)
        totalLines)).map Prod.snd).Pairwise List.Disjoint ∧
    (∀ s ∈ (renamePredicates o2n (pgPredicates (pgGroups lineMapping)
        totalLines)).map Prod.snd, s.Nodup) := by
  have hstt := truthTable_fold (bitMapOf (pgGroups lineMapping))
    (List.range (totalLines + 1)) [] (by simp)
  have hjoin0 : List.Perm
      (((pgPredicates (pgGroups lineMapping) totalLines).map Prod.snd).flatten)
      (List.range (totalLines + 1)) := by
    unfold pgPredicates
    rw [pgNameStep_fold]
    simp only [List.map_nil, List.nil_append]
    unfold sameTruthTable
    have h2 := hstt.2
    simpa using h2
  have hperm : List.Perm (((renamePredicates o2n (pgPredicates
      (pgGroups lineMapping) totalLines)).map Prod.snd).flatten)
      (List.range (totalLines + 1)) := by
    rw [renamePredicates_flatten]
    exact (hjoin0.map _).trans hbij
  have hnd : (((renamePredicates o2n (pgPredicates (pgGroups lineMapping)
      totalLines)).map Prod.snd).flatten).Nodup :=
    hperm.nodup_iff.mpr (List.nodup_range (totalLines + 1))
  exact ⟨hperm, (List.nodup_flatten.mp hnd).2, (List.nodup_flatten.mp hnd).1⟩

/-- C9 witness: the partition at a concrete two-device line mapping with
the identity renumbering. -/
theorem C9_predicate_partition_witness :
    List.Perm (((renamePredicates [(0, 0), (1, 1)]
        (pgPredicates (pgGroups [("A", [0]), ("B", [0, 1])]) 1)).map
      Prod.snd).flatten) (List.range 2) :=
  (C9_predicate_partition [("A", [0]), ("B", [0, 1])] 1 [(0, 0), (1, 1)]
    (by decide)).1

/-- A fold over devices of an all-empty parameters table leaves the
param-count map unchanged. -/
theorem paramCountMap_of_empty :
    ∀ (ps : List (String × List (String × PyVal)))
      (pcm : List (String × List (PyVal × Nat × List String))),
      (∀ dv ∈ ps, dv.2 = []) →
      ps.foldl (fun pcm2 dev =>
        dev.2.foldl (fun pcm3 pv => pcmAdd pcm3 pv.1 pv.2 dev.1) pcm2) pcm = pcm := by
  intro ps
  induction ps with
  | nil => intro pcm _; rfl
  | cons dv rest ih =>
      intro pcm h
      rw [List.foldl_cons, h dv (by simp)]
      exact ih pcm (fun d hd => h d (by simp [hd]))

/-- With an all-empty parameters table there are no single-parameter
reports. -/
theorem singleParamReports_of_empty (pl : ParametersLinesMap)
    (h : ∀ dv ∈ pl.parameters, dv.2 = []) : singleParamReports pl = [] := by
  unfold singleParamReports paramCountMap
  rw [paramCountMap_of_empty pl.parameters [] h]
  rfl

/-- With a zero counter there are no spurious-parameter reports. -/
theorem spuriousParamReports_of_zero (pl : ParametersLinesMap)
    (h : pl.counter = 0) : spuriousParamReports pl = [] := by
  unfold spuriousParamReports
  rw [h]
  rfl

/-- Once initialised, the templating loop stays initialised and counts
one merge per remaining segment. -/
theorem sgFold_after_init (mergeF : Segment → Segment → ParametersLinesMap →
      List Block × ParametersLinesMap) (name fmt : String) :
    ∀ (l : List (String × PrefixList.PLJson)) (mt : Segment)
      (pl : ParametersLinesMap) (n : Nat),
      ∃ mt2 pl2, l.foldl (sgStep mergeF name fmt) ⟨some mt, some pl, n⟩ =
        ⟨some mt2, some pl2, n + l.length⟩ := by
  intro l
  induction l with
  | nil => intro mt pl n; exact ⟨mt, pl, by simp⟩
  | cons dvj rest ih =>
      intro mt pl n
      rw [List.foldl_cons]
      have hss : ∃ mt1 pl1, sgStep mergeF name fmt ⟨some mt, some pl, n⟩ dvj =
          ⟨some mt1, some pl1, n + 1⟩ := ⟨_, _, rfl⟩
      obtain ⟨mt1, pl1, hss⟩ := hss
      rw [hss]
      obtain ⟨mt2, pl2, h⟩ := ih mt1 pl1 (n + 1)
      refine ⟨mt2, pl2, ?_⟩
      rw [h]
      simp only [List.length_cons]
      congr 1
      omega

/-- `checkJSONEquality` reports equality and keeps an equal entry when
one is already registered. -/
theorem cjeAdd_mem (j : PrefixList.PLJson) (r : String) :
    ∀ em : List (String × List String × PrefixList.PLJson),
      em.any (fun e => decide (e.2.2 = j)) = true →
      (cjeAdd em j r).1 = true ∧
        (cjeAdd em j r).2.any (fun e => decide (e.2.2 = j)) = true := by
  intro em
  induction em with
  | nil => intro h; simp at h
  | cons e rest ih =>
      intro h
      by_cases he : e.2.2 = j
      · have hc : cjeAdd (e :: rest) j r = (true, (e.1, e.2.1 ++ [r], e.2.2) :: rest) := by
          unfold cjeAdd
          rw [if_pos he]
        rw [hc]
        refine ⟨rfl, ?_⟩
        rw [List.any_cons]
        simp [he]
      · have hrest : rest.any (fun e => decide (e.2.2 = j)) = true := by
          rw [List.any_cons] at h
          rcases Bool.or_eq_true_iff.mp h with h1 | h1
          · exact absurd (of_decide_eq_true h1) he
          · exact h1
        obtain ⟨ih1, ih2⟩ := ih hrest
        have hc : cjeAdd (e :: rest) j r =
            ((cjeAdd rest j r).1, e :: (cjeAdd rest j r).2) := by
          simp only [cjeAdd]
          rw [if_neg he]
        rw [hc]
        refine ⟨ih1, ?_⟩
        rw [List.any_cons, ih2]
        simp

/-- Retention when every remaining device carries an already registered
JSON: nothing further is retained. -/
theorem retain_all_equal (name fmt : String) (j : PrefixList.PLJson) :
    ∀ (rest : List (String × PrefixList.PLJson))
      (em : List (String × List String × PrefixList.PLJson))
      (ret : List (String × PrefixList.PLJson)),
      (∀ dv ∈ rest, dv.2 = j) →
      em.any (fun e => decide (e.2.2 = j)) = true →
      (rest.foldl (retainStep name fmt) ⟨em, ret⟩).retained = ret := by
  intro rest
  induction rest with
  | nil => intro em ret _ _; rfl
  | cons dv tail ih =>
      intro em ret h hem
      rw [List.foldl_cons]
      have hj : dv.2 = j := h dv (by simp)
      obtain ⟨hc1, hc2⟩ := cjeAdd_mem j dv.1 em hem
      by_cases hp : 0 < (PrefixList.mkSegment name dv.1 dv.2 fmt).blocks.length ∧
          0 < (((PrefixList.mkSegment name dv.1 dv.2 fmt).blocks.headD
            dfltBlock).lines).length
      · have hstep : retainStep name fmt ⟨em, ret⟩ dv =
            ⟨(cjeAdd em j dv.1).2, ret⟩ := by
          unfold retainStep
          rw [if_pos hp, hj, if_pos hc1]
        rw [hstep]
        exact ih _ ret (fun x hx => h x (by simp [hx])) hc2
      · have hstep : retainStep name fmt ⟨em, ret⟩ dv = ⟨em, ret⟩ := by
          unfold retainStep
          rw [if_neg hp]
        rw [hstep]
        exact ih em ret (fun x hx => h x (by simp [hx])) hem

/-- The templating order of a single bucket is the bucket itself. -/
theorem sgorder_single (k : Int) (v : List (String × PrefixList.PLJson)) :
    SGorder [(k, v)] = v := by
  unfold SGorder
  show ((insertDescPair (v.length, k) []).map
    (fun t => (getAssoc [(k, v)] t.2).getD [])).flatten = v
  unfold insertDescPair
  show ((getAssoc [(k, v)] k).getD []) ++ [].flatten = v
  unfold getAssoc
  simp

/-- C8: for the driver with any merge machinery, any parameter
minimisation that preserves an all-empty parameter table and a zero
counter and the device count of the line mapping, whenever at least one
non-empty segment is retained (the pipeline returns a code): the code is
"Exact Consistency" exactly when zero merges were performed; the code is
"Reorder Consistency" exactly when merges occurred, the counter is 0
after minimisation, and there is at most one group with no
single-parameter or spurious-parameter reports; zero merges imply a zero
counter, no parameters and exactly one group; and when all devices carry
byte-equal parseable JSONs, the fast path retains only the first device,
performs zero merges and returns "Exact Consistency". -/
theorem C8_driver_classification
    (mergeF : Segment → Segment → ParametersLinesMap →
      List Block × ParametersLinesMap)
    (minF : Segment → ParametersLinesMap → ParametersLinesMap)
    (name fmt : String) (devices : List (String × PrefixList.PLJson))
    (code : String) (tc : Nat) (plf : ParametersLinesMap)
    (hminEmp : ∀ mt pl, (∀ dv ∈ pl.parameters, dv.2 = []) →
      ∀ dv ∈ (minF mt pl).parameters, dv.2 = [])
    (hminCnt : ∀ mt pl, pl.counter = 0 → (minF mt pl).counter = 0)
    (hminLM : ∀ mt pl, (minF mt pl).lineMapping.length = pl.lineMapping.length)
    (hres : SGresult mergeF minF name fmt devices = some (code, tc, plf)) :
    (code = "Exact Consistency" ↔ tc = 0) ∧
    (code = "Reorder Consistency" ↔ tc ≠ 0 ∧ plf.counter = 0 ∧
      plf.groupsList.length ≤ 1 ∧ singleParamReports plf = [] ∧
      spuriousParamReports plf = []) ∧
    (tc = 0 → plf.counter = 0 ∧ (∀ dv ∈ plf.parameters, dv.2 = []) ∧
      plf.groupsList.length = 1) ∧
    (∀ (d : String) (j : PrefixList.PLJson)
        (rest : List (String × PrefixList.PLJson)),
      devices = (d, j) :: rest → (∀ dv ∈ rest, dv.2 = j) →
      0 < (PrefixList.createBlocks j).length →
      0 < (((PrefixList.createBlocks j).headD dfltBlock).lines).length →
      (retainedDevices name fmt devices).retained = [(d, j)] ∧ tc = 0 ∧
        code = "Exact Consistency") := by
  rcases hord : SGorder (lineCountMapOf name fmt
      (retainedDevices name fmt devices).retained) with _ | ⟨o, r⟩
  · exfalso
    unfold SGresult at hres
    rw [hord] at hres
    cases hres
  · have hinit : sgStep mergeF name fmt ⟨none, none, 0⟩ o =
        ⟨some { PrefixList.mkSegment name o.1 o.2 fmt with deviceName := "Template" },
          some ⟨0, [((PrefixList.mkSegment name o.1 o.2 fmt).deviceName, [])],
            [((PrefixList.mkSegment name o.1 o.2 fmt).deviceName,
              intRange (segTotal (PrefixList.mkSegment name o.1 o.2 fmt) + 1))],
            [], []⟩, 0⟩ := rfl
    obtain ⟨mtf, pl0, hfold⟩ := sgFold_after_init mergeF name fmt r
      { PrefixList.mkSegment name o.1 o.2 fmt with deviceName := "Template" }
      ⟨0, [((PrefixList.mkSegment name o.1 o.2 fmt).deviceName, [])],
        [((PrefixList.mkSegment name o.1 o.2 fmt).deviceName,
          intRange (segTotal (PrefixList.mkSegment name o.1 o.2 fmt) + 1))],
        [], []⟩ 0
    have hrun : (SGorder (lineCountMapOf name fmt
        (retainedDevices name fmt devices).retained)).foldl
        (sgStep mergeF name fmt) ⟨none, none, 0⟩ =
        ⟨some mtf, some pl0, 0 + r.length⟩ := by
      rw [hord, List.foldl_cons, hinit]
      exact hfold
    have hres2 : some (SGdecision { minF mtf pl0 with
        groupsList := pgGroups (minF mtf pl0).lineMapping } (0 + r.length),
        0 + r.length,
        ({ minF mtf pl0 with
          groupsList := pgGroups (minF mtf pl0).lineMapping } :
            ParametersLinesMap)) = some (code, tc, plf) := by
      rw [← hres]
      unfold SGresult
      rw [hrun]
    have hcode : SGdecision plf tc = code := by
      injection hres2 with h1
      injection h1 with hc h2
      injection h2 with ht hp
      rw [← hc, ← ht, hp]
    have htc : tc = r.length := by
      injection hres2 with h1
      injection h1 with hc h2
      injection h2 with ht hp
      omega
    have hplf : plf = { minF mtf pl0 with
        groupsList := pgGroups (minF mtf pl0).lineMapping } := by
      injection hres2 with h1
      injection h1 with hc h2
      injection h2 with ht hp
      rw [hp]
    have hinv : tc = 0 → plf.counter = 0 ∧ (∀ dv ∈ plf.parameters, dv.2 = []) ∧
        plf.groupsList.length = 1 := by
      intro h0
      have hr : r = [] := by
        rw [htc] at h0
        exact List.length_eq_zero.mp h0
      have hpl0 : pl0 = ⟨0, [((PrefixList.mkSegment name o.1 o.2 fmt).deviceName, [])],
          [((PrefixList.mkSegment name o.1 o.2 fmt).deviceName,
            intRange (segTotal (PrefixList.mkSegment name o.1 o.2 fmt) + 1))],
          [], []⟩ := by
        have := hfold
        rw [hr] at this
        simp only [List.foldl_nil] at this
        injection this with hmt hpl htc2
        injection hpl with hpl2
        exact hpl2.symm
      have hemp : ∀ dv ∈ (minF mtf pl0).parameters, dv.2 = [] := by
        apply hminEmp
        rw [hpl0]
        intro dv hdv
        simp only [List.mem_singleton] at hdv
        rw [hdv]
      have hcnt : (minF mtf pl0).counter = 0 := by
        apply hminCnt
        rw [hpl0]
      have hlm : (minF mtf pl0).lineMapping.length = 1 := by
        rw [hminLM, hpl0]
        rfl
      obtain ⟨e, he⟩ := List.length_eq_one.mp hlm
      have hgl : pgGroups (minF mtf pl0).lineMapping = [(pySortList e.2, [e.1])] := by
        rw [he]
        rfl
      refine ⟨?_, ?_, ?_⟩
      · rw [hplf]
        exact hcnt
      · rw [hplf]
        exact hemp
      · rw [hplf]
        show (pgGroups (minF mtf pl0).lineMapping).length = 1
        rw [hgl]
        rfl
    have hgate0 : tc = 0 → ¬(1 < plf.groupsList.length ∨
        singleParamReports plf ≠ [] ∨ spuriousParamReports plf ≠ []) := by
      intro h0
      obtain ⟨hcnt, hemp, hgl⟩ := hinv h0
      rw [hgl, singleParamReports_of_empty plf hemp,
        spuriousParamReports_of_zero plf hcnt]
      simp
    have hiff1 : code = "Exact Consistency" ↔ tc = 0 := by
      constructor
      · intro hc
        by_contra h0
        rw [← hcode] at hc
        unfold SGdecision at hc
        by_cases hg : 1 < plf.groupsList.length ∨ singleParamReports plf ≠ [] ∨
            spuriousParamReports plf ≠ []
        · rw [if_pos hg] at hc
          exact absurd hc (by decide)
        · rw [if_neg hg, if_neg h0] at hc
          by_cases hcn : plf.counter = 0
          · rw [if_pos hcn] at hc
            exact absurd hc (by decide)
          · rw [if_neg hcn] at hc
            exact absurd hc (by decide)
      · intro h0
        rw [← hcode]
        unfold SGdecision
        rw [if_neg (hgate0 h0), if_pos h0]
    have hiff2 : code = "Reorder Consistency" ↔ tc ≠ 0 ∧ plf.counter = 0 ∧
        plf.groupsList.length ≤ 1 ∧ singleParamReports plf = [] ∧
        spuriousParamReports plf = [] := by
      constructor
      · intro hc
        rw [← hcode] at hc
        unfold SGdecision at hc
        by_cases hg : 1 < plf.groupsList.length ∨ singleParamReports plf ≠ [] ∨
            spuriousParamReports plf ≠ []
        · rw [if_pos hg] at hc
          exact absurd hc (by decide)
        · rw [if_neg hg] at hc
          push_neg at hg
          by_cases h0 : tc = 0
          · rw [if_pos h0] at hc
            exact absurd hc (by decide)
          · rw [if_neg h0] at hc
            by_cases hcn : plf.counter = 0
            · exact ⟨h0, hcn, by omega, hg.2.1, hg.2.2⟩
            · rw [if_neg hcn] at hc
              exact absurd hc (by decide)
      · intro ⟨h0, hcn, hg1, hg2, hg3⟩
        rw [← hcode]
        unfold SGdecision
        rw [if_neg (by
          intro hg
          rcases hg with hg | hg | hg
          · omega
          · exact hg hg2
          · exact hg hg3), if_neg h0, if_pos hcn]
    refine ⟨hiff1, hiff2, hinv, ?_⟩
    intro d j rest hdev hall hb1 hb2
    have hret : (retainedDevices name fmt devices).retained = [(d, j)] := by
      rw [hdev]
      unfold retainedDevices
      rw [List.foldl_cons]
      have hstep1 : retainStep name fmt ⟨[], []⟩ (d, j) = ⟨[(d, [], j)], [(d, j)]⟩ := by
        unfold retainStep
        rw [if_pos ⟨hb1, hb2⟩]
        rfl
      rw [hstep1]
      exact retain_all_equal name fmt j rest [(d, [], j)] [(d, j)] hall (by simp)
    have hlcm : lineCountMapOf name fmt [(d, j)] =
        [(segTotal (PrefixList.mkSegment name d j fmt), [(d, j)])] := rfl
    have hord2 : SGorder (lineCountMapOf name fmt
        (retainedDevices name fmt devices).retained) = [(d, j)] := by
      rw [hret, hlcm]
      exact sgorder_single _ _
    have hlen : r.length = 0 := by
      rw [hord2] at hord
      injection hord with h1 h2
      rw [← h2]
      rfl
    have h0 : tc = 0 := by omega
    exact ⟨hret, h0, hiff1.mpr h0⟩

/-- C8 witness: the classification theorem's fast-path conclusion at two
devices with byte-equal one-line prefix-lists. -/
theorem C8_driver_classification_witness :
    (retainedDevices "X" "cisco" [("A", c8json), ("B", c8json)]).retained =
      [("A", c8json)] ∧ (0 : Nat) = 0 ∧
      "Exact Consistency" = "Exact Consistency" :=
  (C8_driver_classification c8mergeF (fun _ pl => pl) "X" "cisco"
    [("A", c8json), ("B", c8json)] "Exact Consistency" 0 c8plf
    (fun _ _ h => h) (fun _ _ h => h) (fun _ _ => rfl) (by decide)).2.2.2
    "A" c8json [("B", c8json)] rfl (by decide) (by decide) (by decide)

/-- C4: for every pair of line sequences, parameter-value map and solver
output, the total cost returned by the bipartite matcher equals the sum
of the kept solver match costs (hash-shortcut matches contribute 0), plus
the per-line gap penalty for each solver assignment whose cost is
INFINITY, plus the per-line gap penalty times the length difference of
the two sequences. -/
theorem C4_bipartite_total_cost (LS1 LS2 : List Line) (pvm : ParamValueMap)
    (noOfAttributes : Nat) (solver : List (List Int) → List (Nat × Nat)) :
    (PrefixList.BipartiteMatching LS1 LS2 pvm noOfAttributes solver).1 =
      PrefixList.keptCost (PrefixList.bmMatrix LS1 LS2 pvm noOfAttributes)
          (PrefixList.bmIndices LS1 LS2 pvm noOfAttributes solver)
        + PrefixList.linePenaltyFor noOfAttributes *
            (PrefixList.discardedCount (PrefixList.bmMatrix LS1 LS2 pvm noOfAttributes)
              (PrefixList.bmIndices LS1 LS2 pvm noOfAttributes solver) : Int)
        + PrefixList.linePenaltyFor noOfAttributes *
            (((LS1.length : Int) - (LS2.length : Int)).natAbs : Int) := by
  show (PrefixList.assignFold _ _ _ _ _ (0, (PrefixList.hashLoop LS1 LS2).matched)).1 + _ = _
  rw [PrefixList.assignFold_score]
  ring

end SelfStarter
